import Mathlib

/-
Verification development for the cloudstore repository's in-memory storage
layer (server/storage.ts, MemStorage) and the route handlers that call it
(server routes). Entities (User, Folder, File, Share) mirror the drizzle
schema at runtime; JS `Map`s keyed by the record's own `id` are embedded as
lists of records, with `Map.get/set/delete` modelled by `mapGet/mapSet/
mapDelete` (set replaces in place when the key is present, appends
otherwise, matching JS Map insertion-order semantics). Timestamps and byte
sizes are integers (milliseconds); every call of `new Date()` in the source
becomes an explicit `now` parameter, and `randomBytes(...).toString` becomes
an explicit `token` parameter.
-/

namespace CloudStore

/-- Runtime shape of a user record (schema `users` table). -/
structure User where
  id : Nat
  username : String
  password : String
  name : Option String
  avatar : Option String
  storageLimit : Int
  storageUsed : Int
  createdAt : Int
deriving DecidableEq, Repr

/-- Runtime shape of a folder record. Flags that `createFolder` leaves
absent (undefined) are modelled as `false`/`none`, which is observationally
equal under the truthiness checks the source applies to them. -/
structure Folder where
  id : Nat
  name : String
  userId : Nat
  parentId : Option Nat
  inTrash : Bool
  deletedAt : Option Int
  starred : Bool
  isShared : Bool
  createdAt : Int
  modifiedAt : Option Int
deriving DecidableEq, Repr

/-- Runtime shape of a file record. `lastAccessedAt` is absent (`none`) on
creation; `modifiedAt` is always stamped by `createFile`/`updateFile`. -/
structure File where
  id : Nat
  name : String
  type : String
  size : Int
  userId : Nat
  folderId : Option Nat
  path : String
  starred : Bool
  isShared : Bool
  inTrash : Bool
  deletedAt : Option Int
  lastAccessedAt : Option Int
  createdAt : Int
  modifiedAt : Int
deriving DecidableEq, Repr

/-- Runtime shape of a share record; `fileId`/`folderId` are nullable. -/
structure Share where
  id : Nat
  fileId : Option Nat
  folderId : Option Nat
  userId : Nat
  accessType : String
  allowDownload : Bool
  expiryDate : Option Int
  token : String
  createdAt : Int
deriving DecidableEq, Repr

/-- FileWithPath: a file plus the download URL attached by the list
endpoints. -/
structure FileWithPath where
  file : File
  url : String
deriving DecidableEq, Repr

/-- FolderWithStats: a folder plus fileCount/totalSize over direct child
files. -/
structure FolderWithStats where
  folder : Folder
  fileCount : Nat
  totalSize : Int
deriving DecidableEq, Repr

/-- Public sharer info embedded in ShareWithDetails. -/
structure SharedBy where
  name : String
  avatar : String
deriving DecidableEq, Repr

/-- ShareWithDetails: a share plus resolved file/folder and sharer info. -/
structure ShareWithDetails where
  share : Share
  file : Option File
  folder : Option Folder
  sharedBy : Option SharedBy
deriving DecidableEq, Repr

/-- InsertUser: the fields `createUser` receives. -/
structure InsertUser where
  username : String
  password : String
  name : Option String := none
  avatar : Option String := none
deriving DecidableEq, Repr

/-- InsertFolder: the fields `createFolder` receives. -/
structure InsertFolder where
  name : String
  userId : Nat
  parentId : Option Nat := none
deriving DecidableEq, Repr

/-- InsertFile: the fields `createFile` receives. -/
structure InsertFile where
  name : String
  type : String
  size : Int
  userId : Nat
  folderId : Option Nat := none
  path : String
deriving DecidableEq, Repr

/-- InsertShareData: the fields `createShare` receives (token passed
separately, as in the source where it is generated inside `createShare`). -/
structure InsertShareData where
  fileId : Option Nat := none
  folderId : Option Nat := none
  userId : Nat
  accessType : String
  allowDownload : Bool
  expiryDate : Option Int := none
deriving DecidableEq, Repr

/-- Partial User, for `updateUser` (shallow merge source `Partial of User`). -/
structure UserPatch where
  id : Option Nat := none
  username : Option String := none
  password : Option String := none
  name : Option (Option String) := none
  avatar : Option (Option String) := none
  storageLimit : Option Int := none
  storageUsed : Option Int := none
  createdAt : Option Int := none
deriving DecidableEq, Repr

/-- Partial Folder, for `updateFolder`. -/
structure FolderPatch where
  id : Option Nat := none
  name : Option String := none
  userId : Option Nat := none
  parentId : Option (Option Nat) := none
  inTrash : Option Bool := none
  deletedAt : Option (Option Int) := none
  starred : Option Bool := none
  isShared : Option Bool := none
  createdAt : Option Int := none
  modifiedAt : Option (Option Int) := none
deriving DecidableEq, Repr

/-- Partial File, for `updateFile`. -/
structure FilePatch where
  id : Option Nat := none
  name : Option String := none
  type : Option String := none
  size : Option Int := none
  userId : Option Nat := none
  folderId : Option (Option Nat) := none
  path : Option String := none
  starred : Option Bool := none
  isShared : Option Bool := none
  inTrash : Option Bool := none
  deletedAt : Option (Option Int) := none
  lastAccessedAt : Option (Option Int) := none
  createdAt : Option Int := none
  modifiedAt : Option Int := none
deriving DecidableEq, Repr

/-- JS Map.get keyed by the record's own id. -/
def mapGet (idOf : α → Nat) (l : List α) (i : Nat) : Option α :=
  l.find? (fun x => idOf x == i)

/-- JS Map.has keyed by the record's own id. -/
def mapHas (idOf : α → Nat) (l : List α) (i : Nat) : Bool :=
  l.any (fun x => idOf x == i)

/-- JS Map.set: replace in place when the key is present, else append. -/
def mapSet (idOf : α → Nat) (l : List α) (i : Nat) (v : α) : List α :=
  if mapHas idOf l i then l.map (fun x => if idOf x == i then v else x)
  else l ++ [v]

/-- JS Map.delete (the removal part; the returned Bool is `mapHas` before). -/
def mapDelete (idOf : α → Nat) (l : List α) (i : Nat) : List α :=
  l.filter (fun x => idOf x != i)

/-- The MemStorage state: the four entity maps and the four id counters. -/
structure MemStorage where
  users : List User
  folders : List Folder
  files : List File
  shares : List Share
  currentUserId : Nat
  currentFolderId : Nat
  currentFileId : Nat
  currentShareId : Nat
deriving DecidableEq, Repr

/-- The demo user pre-seeded by the MemStorage constructor at key 1. -/
def demoUser (now : Int) : User :=
  { id := 1
    username := "demo@example.com"
    password := "password-hash.salt"
    name := some "Demo User"
    avatar := some "https://images.unsplash.com/photo-1472099645785-5658abf4ff4e"
    storageLimit := 15 * 1024 * 1024 * 1024
    storageUsed := 0
    createdAt := now }

/-- The MemStorage constructor: empty maps except the demo user, all four
counters starting at 1. -/
def initMemStorage (now : Int) : MemStorage :=
  { users := [demoUser now]
    folders := []
    files := []
    shares := []
    currentUserId := 1
    currentFolderId := 1
    currentFileId := 1
    currentShareId := 1 }

/-- MemStorage.getUser. -/
def getUser (s : MemStorage) (i : Nat) : Option User :=
  mapGet User.id s.users i

/-- MemStorage.createUser: takes the next user id, builds the record with a
15 GB limit and zero usage, stores it. -/
def createUser (s : MemStorage) (d : InsertUser) (now : Int) : User × MemStorage :=
  let id := s.currentUserId
  let user : User :=
    { id
      username := d.username
      password := d.password
      name := d.name
      avatar := d.avatar
      storageLimit := 15 * 1024 * 1024 * 1024
      storageUsed := 0
      createdAt := now }
  (user, { s with users := mapSet User.id s.users id user, currentUserId := id + 1 })

/-- Shallow merge of a UserPatch over a User (JS object spread). -/
def mergeUser (u : User) (d : UserPatch) : User :=
  { id := d.id.getD u.id
    username := d.username.getD u.username
    password := d.password.getD u.password
    name := d.name.getD u.name
    avatar := d.avatar.getD u.avatar
    storageLimit := d.storageLimit.getD u.storageLimit
    storageUsed := d.storageUsed.getD u.storageUsed
    createdAt := d.createdAt.getD u.createdAt }

/-- MemStorage.updateUser: undefined when missing, else shallow merge. -/
def updateUser (s : MemStorage) (i : Nat) (d : UserPatch) : Option User × MemStorage :=
  match mapGet User.id s.users i with
  | none => (none, s)
  | some u =>
    let u' := mergeUser u d
    (some u', { s with users := mapSet User.id s.users i u' })

/-- MemStorage.createFolder. Fields the source leaves absent on the new
object are `false`/`none` here. -/
def createFolder (s : MemStorage) (d : InsertFolder) (now : Int) : Folder × MemStorage :=
  let id := s.currentFolderId
  let g : Folder :=
    { id
      name := d.name
      userId := d.userId
      parentId := d.parentId
      inTrash := false
      deletedAt := none
      starred := false
      isShared := false
      createdAt := now
      modifiedAt := none }
  (g, { s with folders := mapSet Folder.id s.folders id g, currentFolderId := id + 1 })

/-- MemStorage.getFolder. -/
def getFolder (s : MemStorage) (i : Nat) : Option Folder :=
  mapGet Folder.id s.folders i

/-- Stats attached to a folder: count and total size of its direct child
files. -/
def folderStats (s : MemStorage) (g : Folder) : FolderWithStats :=
  let fls := s.files.filter (fun f => f.folderId == some g.id)
  { folder := g, fileCount := fls.length, totalSize := (fls.map File.size).sum }

/-- MemStorage.getFoldersByUserId: folders of the user under the given
parent (an omitted/undefined parent behaves as null, i.e. root), each with
stats. -/
def getFoldersByUserId (s : MemStorage) (userId : Nat) (parentId : Option Nat) :
    List FolderWithStats :=
  ((s.folders.filter (fun g => g.userId == userId && g.parentId == parentId)).map
    (folderStats s))

/-- Shallow merge of a FolderPatch over a Folder. -/
def mergeFolder (g : Folder) (d : FolderPatch) : Folder :=
  { id := d.id.getD g.id
    name := d.name.getD g.name
    userId := d.userId.getD g.userId
    parentId := d.parentId.getD g.parentId
    inTrash := d.inTrash.getD g.inTrash
    deletedAt := d.deletedAt.getD g.deletedAt
    starred := d.starred.getD g.starred
    isShared := d.isShared.getD g.isShared
    createdAt := d.createdAt.getD g.createdAt
    modifiedAt := d.modifiedAt.getD g.modifiedAt }

/-- MemStorage.updateFolder: undefined when missing, else shallow merge of
the provided fields; note the source does NOT stamp modifiedAt here. -/
def updateFolder (s : MemStorage) (i : Nat) (d : FolderPatch) : Option Folder × MemStorage :=
  match mapGet Folder.id s.folders i with
  | none => (none, s)
  | some g =>
    let g' := mergeFolder g d
    (some g', { s with folders := mapSet Folder.id s.folders i g' })

/-- MemStorage.updateUserStorageUsed: add the delta, clamped below at 0. -/
def updateUserStorageUsed (s : MemStorage) (userId : Nat) (delta : Int) :
    Option User × MemStorage :=
  match mapGet User.id s.users userId with
  | none => (none, s)
  | some u =>
    let used := u.storageUsed + delta
    let used := if used < 0 then 0 else used
    let u' := { u with storageUsed := used }
    (some u', { s with users := mapSet User.id s.users userId u' })

/-- MemStorage.createFile: store the new record (starred false, timestamps
stamped, lastAccessedAt absent), then add its size to the owner's
storageUsed (no clamp on this path). -/
def createFile (s : MemStorage) (d : InsertFile) (now : Int) : File × MemStorage :=
  let id := s.currentFileId
  let f : File :=
    { id
      name := d.name
      type := d.type
      size := d.size
      userId := d.userId
      folderId := d.folderId
      path := d.path
      starred := false
      isShared := false
      inTrash := false
      deletedAt := none
      lastAccessedAt := none
      createdAt := now
      modifiedAt := now }
  let s1 := { s with files := mapSet File.id s.files id f, currentFileId := id + 1 }
  match mapGet User.id s1.users d.userId with
  | none => (f, s1)
  | some u =>
    let u' := { u with storageUsed := u.storageUsed + d.size }
    (f, { s1 with users := mapSet User.id s1.users u.id u' })

/-- MemStorage.getFile. -/
def getFile (s : MemStorage) (i : Nat) : Option File :=
  mapGet File.id s.files i

/-- Download URL attached to listed files. -/
def downloadUrl (i : Nat) : String :=
  "/api/files/" ++ toString i ++ "/download"

/-- Attach the download URL to a file. -/
def addUrl (f : File) : FileWithPath :=
  { file := f, url := downloadUrl f.id }

/-- MemStorage.getFilesByUserId: the user's files, optionally restricted to
one folder (undefined folder argument means no restriction). -/
def getFilesByUserId (s : MemStorage) (userId : Nat) (folderId : Option (Option Nat)) :
    List FileWithPath :=
  ((s.files.filter (fun f =>
      f.userId == userId &&
      (match folderId with
       | none => true
       | some fid => f.folderId == fid))).map addUrl)

/-- Shallow merge of a FilePatch over a File. -/
def mergeFile (f : File) (d : FilePatch) : File :=
  { id := d.id.getD f.id
    name := d.name.getD f.name
    type := d.type.getD f.type
    size := d.size.getD f.size
    userId := d.userId.getD f.userId
    folderId := d.folderId.getD f.folderId
    path := d.path.getD f.path
    starred := d.starred.getD f.starred
    isShared := d.isShared.getD f.isShared
    inTrash := d.inTrash.getD f.inTrash
    deletedAt := d.deletedAt.getD f.deletedAt
    lastAccessedAt := d.lastAccessedAt.getD f.lastAccessedAt
    createdAt := d.createdAt.getD f.createdAt
    modifiedAt := d.modifiedAt.getD f.modifiedAt }

/-- MemStorage.updateFile: undefined when missing; if the size changes the
owner's storage is adjusted by the delta; then shallow merge with
modifiedAt stamped to the call time (the spread puts modifiedAt last). -/
def updateFile (s : MemStorage) (i : Nat) (d : FilePatch) (now : Int) :
    Option File × MemStorage :=
  match mapGet File.id s.files i with
  | none => (none, s)
  | some f =>
    let s1 :=
      match d.size with
      | some sz => if sz != f.size then (updateUserStorageUsed s f.userId (sz - f.size)).2 else s
      | none => s
    let f' := { mergeFile f d with modifiedAt := now }
    (some f', { s1 with files := mapSet File.id s1.files i f' })

/-- MemStorage.deleteFile: false when missing; else subtract the size from
the owner's storage (clamped), delete the shares whose fileId is this file,
and remove the file. -/
def deleteFile (s : MemStorage) (i : Nat) : Bool × MemStorage :=
  match mapGet File.id s.files i with
  | none => (false, s)
  | some f =>
    let s1 := (updateUserStorageUsed s f.userId (-f.size)).2
    let s2 := { s1 with shares := s1.shares.filter (fun sh => sh.fileId != some i) }
    (mapHas File.id s2.files i, { s2 with files := mapDelete File.id s2.files i })

/-- One pass of MemStorage.deleteFolder phase 1: delete each file id in the
snapshot list. -/
def deleteFilesIn (s : MemStorage) : List Nat → MemStorage
  | [] => s
  | i :: rest => deleteFilesIn (deleteFile s i).2 rest

/-- Sequentially run a folder-deleting function over a snapshot list of
subfolder ids, threading the state; none propagates fuel exhaustion. -/
def delSubs (del : MemStorage → Nat → Option (Bool × MemStorage)) :
    MemStorage → List Nat → Option MemStorage
  | s, [] => some s
  | s, i :: rest =>
    match del s i with
    | none => none
    | some (_, s') => delSubs del s' rest

/-- Snapshot of the ids of the files contained in folder `id` (the loop
snapshot deleteFolder takes before deleting them). -/
def folderFileIds (s : MemStorage) (id : Nat) : List Nat :=
  (s.files.filter (fun f => f.folderId == some id)).map File.id

/-- Snapshot of the ids of the direct subfolders of folder `id`. -/
def subfolderIds (s : MemStorage) (id : Nat) : List Nat :=
  (s.folders.filter (fun g => g.parentId == some id)).map Folder.id

/-- MemStorage.deleteFolder, fuel-indexed (the source recursion carries no
fuel; `none` means the fuel ran out before the recursion bottomed out).
Phase order follows the source: first delete every file whose folderId is
this folder, then recursively delete every folder whose parentId is this
folder, then remove the folder itself, returning whether it existed. -/
def deleteFolderF : Nat → MemStorage → Nat → Option (Bool × MemStorage)
  | 0, _, _ => none
  | fuel + 1, s, id =>
    let s1 := deleteFilesIn s (folderFileIds s id)
    match delSubs (deleteFolderF fuel) s1 (subfolderIds s1 id) with
    | none => none
    | some s2 =>
      some (mapHas Folder.id s2.folders id,
        { s2 with folders := mapDelete Folder.id s2.folders id })

/-- MemStorage.createShare: next share id, record stored with the supplied
token. -/
def createShare (s : MemStorage) (d : InsertShareData) (token : String) (now : Int) :
    Share × MemStorage :=
  let id := s.currentShareId
  let sh : Share :=
    { id
      fileId := d.fileId
      folderId := d.folderId
      userId := d.userId
      accessType := d.accessType
      allowDownload := d.allowDownload
      expiryDate := d.expiryDate
      token := token
      createdAt := now }
  (sh, { s with shares := mapSet Share.id s.shares id sh, currentShareId := id + 1 })

/-- JS truthiness on an optional numeric id: absent and 0 are falsy. -/
def truthyId (o : Option Nat) : Option Nat :=
  match o with
  | some n => if n == 0 then none else some n
  | none => none

/-- JS truthiness on an optional numeric timestamp: absent and 0 are
falsy (the route builds expiryDate with a conditional on its truthiness). -/
def truthyDate (o : Option Int) : Option Int :=
  match o with
  | some t => if t == 0 then none else some t
  | none => none

/-- JS `a or-else b` on an optional string: absent and the empty string are
falsy. -/
def jsOrStr (o : Option String) (dflt : String) : String :=
  match o with
  | some v => if v == "" then dflt else v
  | none => dflt

/-- Resolution of a share into ShareWithDetails, as in getShareByToken:
target file/folder looked up when the id is truthy, sharer info from the
user map. -/
def mkShareDetails (s : MemStorage) (sh : Share) : ShareWithDetails :=
  { share := sh
    file := (truthyId sh.fileId).bind (fun i => mapGet File.id s.files i)
    folder := (truthyId sh.folderId).bind (fun i => mapGet Folder.id s.folders i)
    sharedBy := (mapGet User.id s.users sh.userId).map (fun u =>
      { name := jsOrStr u.name u.username, avatar := jsOrStr u.avatar "" }) }

/-- MemStorage.getShareByToken: first share with this token, resolved; the
store consults nothing else (in particular not expiryDate). -/
def getShareByToken (s : MemStorage) (token : String) : Option ShareWithDetails :=
  (s.shares.find? (fun sh => sh.token == token)).map (mkShareDetails s)

/-- MemStorage.deleteShare: Map.delete semantics, Bool is prior presence. -/
def deleteShare (s : MemStorage) (i : Nat) : Bool × MemStorage :=
  (mapHas Share.id s.shares i, { s with shares := mapDelete Share.id s.shares i })

/-- Milliseconds in 30 days, the recency window of getRecentFiles. -/
def thirtyDaysMs : Int := 30 * 86400000

/-- The getRecentFiles filter: the user's files with a present (truthy)
lastAccessedAt at or after the thirty-days-ago cutoff and not in trash. -/
def recentPred (userId : Nat) (now : Int) (f : File) : Bool :=
  f.userId == userId && f.lastAccessedAt.isSome &&
    decide (now - thirtyDaysMs ≤ f.lastAccessedAt.getD 0) && !f.inTrash

/-- The getRecentFiles comparator order (the source comparator returns
dateB − dateA, a descending sort on lastAccessedAt read as 0 when absent). -/
def recentLE (a b : File) : Prop :=
  b.lastAccessedAt.getD 0 ≤ a.lastAccessedAt.getD 0

instance : DecidableRel recentLE :=
  fun _ _ => inferInstanceAs (Decidable (_ ≤ _))

instance : IsTotal File recentLE :=
  ⟨fun _ _ => Int.le_total _ _⟩

instance : IsTrans File recentLE :=
  ⟨fun _ _ _ hab hbc => le_trans hbc hab⟩

/-- MemStorage.getRecentFiles: the user's non-trashed files with a present
lastAccessedAt within the last 30 days, sorted descending by
lastAccessedAt, then given download URLs. -/
def getRecentFiles (s : MemStorage) (userId : Nat) (now : Int) : List FileWithPath :=
  ((s.files.filter (recentPred userId now)).insertionSort recentLE).map addUrl

/-- A concrete lower-casing function covering the ASCII range (it maps
each character through Char.toLower). It does NOT model the full Unicode
case mapping of String.prototype.toLowerCase; it is used only to
instantiate the folder route's `low` parameter in concrete examples. -/
def asciiLower (s : String) : String :=
  ⟨s.data.map Char.toLower⟩

/-- Result of POST /api/folders after authentication. -/
inductive FolderCreateRes where
  | parentMissing
  | parentForbidden
  | conflict
  | created (g : Folder)
deriving DecidableEq, Repr

/-- Route POST /api/folders: validate the parent when one is given (missing
gives 404, foreign owner 403), reject a duplicate sibling name — compared
after lower-casing both sides with String.prototype.toLowerCase — with
409, else create the folder under `parentId or-else null`. The full
Unicode case mapping of toLowerCase is not reproduced in the embedding;
like `new Date()` (the `now` parameter) and randomBytes (the `token`
parameter), the lower-casing function is passed in as the parameter `low`,
so statements about this route quantify over it and hold for the actual
JS function. -/
def createFolderRoute (s : MemStorage) (low : String → String) (userId : Nat)
    (name : String) (parentId : Option Nat) (now : Int) : FolderCreateRes × MemStorage :=
  let parentCheck : Option FolderCreateRes :=
    match parentId with
    | none => none
    | some p =>
      match mapGet Folder.id s.folders p with
      | none => some .parentMissing
      | some pf => if pf.userId == userId then none else some .parentForbidden
  match parentCheck with
  | some r => (r, s)
  | none =>
    let sibs := getFoldersByUserId s userId (truthyId parentId)
    if sibs.any (fun fw => low fw.folder.name == low name) then (.conflict, s)
    else
      let res := createFolder s { name := name, userId := userId, parentId := truthyId parentId } now
      (.created res.1, res.2)

/-- Result of POST /api/shares after authentication. -/
inductive ShareCreateRes where
  | badRequest
  | forbidden
  | created (sh : Share)
deriving DecidableEq, Repr

/-- Route POST /api/shares: 400 unless exactly one of fileId/folderId is
truthy (absent and 0 are falsy), 403 when the named file/folder is missing
or foreign, else store the share with defaulted accessType/allowDownload
and a truthiness-filtered expiryDate. -/
def createShareRoute (s : MemStorage) (userId : Nat) (fileId folderId : Option Nat)
    (accessType : Option String) (allowDownload : Option Bool) (expiryDate : Option Int)
    (token : String) (now : Int) : ShareCreateRes × MemStorage :=
  if (!(truthyId fileId).isSome && !(truthyId folderId).isSome) ||
     ((truthyId fileId).isSome && (truthyId folderId).isSome) then (.badRequest, s)
  else
    let fileOk : Bool :=
      match truthyId fileId with
      | none => true
      | some i =>
        match mapGet File.id s.files i with
        | none => false
        | some f => f.userId == userId
    if !fileOk then (.forbidden, s)
    else
      let folderOk : Bool :=
        match truthyId folderId with
        | none => true
        | some i =>
          match mapGet Folder.id s.folders i with
          | none => false
          | some g => g.userId == userId
      if !folderOk then (.forbidden, s)
      else
        let res := createShare s
          { fileId := truthyId fileId
            folderId := truthyId folderId
            userId := userId
            accessType := jsOrStr accessType "public"
            allowDownload := allowDownload.getD true
            expiryDate := truthyDate expiryDate } token now
        (.created res.1, res.2)

/-- Result of GET /api/shares/:token. -/
inductive ShareGetRes where
  | notFound
  | expired
  | ok (d : ShareWithDetails)
deriving DecidableEq, Repr

/-- Route GET /api/shares/:token: 404 when the token resolves to nothing,
403 when the resolved share carries an expiryDate lying strictly in the
past, else the resolved share. -/
def getShareRoute (s : MemStorage) (token : String) (now : Int) : ShareGetRes :=
  match getShareByToken s token with
  | none => .notFound
  | some d =>
    match d.share.expiryDate with
    | some e => if e < now then .expired else .ok d
    | none => .ok d

/-- Total size of the files of user u in a file list. -/
def sumSizes (l : List File) (u : Nat) : Int :=
  ((l.filter (fun f => f.userId == u)).map File.size).sum

/-- Sum of sizes of all files of user u currently in the store. -/
def userFilesSize (s : MemStorage) (u : Nat) : Int :=
  sumSizes s.files u

/-- One step of a createFile/deleteFile sequence. -/
inductive FileOp where
  | create (d : InsertFile) (now : Int)
  | del (i : Nat)
deriving DecidableEq, Repr

/-- Apply one FileOp to the store. -/
def applyFileOp (s : MemStorage) : FileOp → MemStorage
  | .create d now => (createFile s d now).2
  | .del i => (deleteFile s i).2

/-- Apply a sequence of FileOps left to right. -/
def applyFileOps (s : MemStorage) (ops : List FileOp) : MemStorage :=
  ops.foldl applyFileOp s

/-- The claim's size restriction: created files have non-negative size. -/
def opSizeOK : FileOp → Prop
  | .create d _ => 0 ≤ d.size
  | .del _ => True

/-- Invariant: every stored user id is below the user id counter. -/
def UsersBelow (s : MemStorage) : Prop := ∀ u ∈ s.users, u.id < s.currentUserId

/-- Invariant: every stored folder id is below the folder id counter. -/
def FoldersBelow (s : MemStorage) : Prop := ∀ g ∈ s.folders, g.id < s.currentFolderId

/-- Invariant: every stored file id is below the file id counter. -/
def FilesBelow (s : MemStorage) : Prop := ∀ f ∈ s.files, f.id < s.currentFileId

/-- Invariant: every stored share id is below the share id counter. -/
def SharesBelow (s : MemStorage) : Prop := ∀ sh ∈ s.shares, sh.id < s.currentShareId

/-- Well-formed file map: ids below the counter (so fresh ids never collide)
and pairwise distinct (as JS Map keys are by construction). -/
def FilesWF (s : MemStorage) : Prop :=
  FilesBelow s ∧ (s.files.map File.id).Nodup

/-- A share referencing exactly one target: precisely one of fileId/folderId
is set. -/
def ShareExactlyOne (sh : Share) : Prop :=
  (sh.fileId.isSome = true ∧ sh.folderId = none) ∨
  (sh.fileId = none ∧ sh.folderId.isSome = true)

/-- A store with no entities at all and fresh counters. -/
def emptyStore : MemStorage :=
  { users := []
    folders := []
    files := []
    shares := []
    currentUserId := 1
    currentFolderId := 1
    currentFileId := 1
    currentShareId := 1 }

/-- Concrete folder used in small example states. -/
def folderEx : Folder :=
  { id := 1
    name := "docs"
    userId := 1
    parentId := none
    inTrash := false
    deletedAt := none
    starred := false
    isShared := false
    createdAt := 0
    modifiedAt := some 0 }

/-- Concrete state holding only `folderEx`. -/
def stateFolderEx : MemStorage :=
  { emptyStore with folders := [folderEx], currentFolderId := 2 }

/-- The folder record POST /api/folders builds when it accepts a request
(fields as assembled by createFolder from the route's arguments). -/
def routeFolder (u : Nat) (name : String) (parentId : Option Nat) (now : Int)
    (id : Nat) : Folder :=
  { id := id
    name := name
    userId := u
    parentId := truthyId parentId
    inTrash := false
    deletedAt := none
    starred := false
    isShared := false
    createdAt := now
    modifiedAt := none }

/-- Concrete share that expired at time 5. -/
def shareEx : Share :=
  { id := 1
    fileId := some 1
    folderId := none
    userId := 1
    accessType := "public"
    allowDownload := true
    expiryDate := some 5
    token := "tokEx"
    createdAt := 0 }

/-- Concrete state holding the demo user and the expired share. -/
def stateShareEx : MemStorage :=
  { emptyStore with
    users := [demoUser 0]
    currentUserId := 2
    shares := [shareEx]
    currentShareId := 2 }

/-- Concrete share pointing at `folderEx`, for the folder-share orphan
counterexample. -/
def folderShareEx : Share :=
  { id := 1
    fileId := none
    folderId := some 1
    userId := 1
    accessType := "public"
    allowDownload := true
    expiryDate := none
    token := "tokFolderEx"
    createdAt := 0 }

/-- Concrete state holding `folderEx` and a share referencing it. -/
def stateFolderShareEx : MemStorage :=
  { emptyStore with
    folders := [folderEx]
    currentFolderId := 2
    shares := [folderShareEx]
    currentShareId := 2 }

/-- Folder id d was a key of the first store's folder map and is no longer
a key of the second store's folder map (it was deleted in between). -/
def FolderDeleted (s s2 : MemStorage) (d : Nat) : Prop :=
  mapHas Folder.id s.folders d = true ∧ mapHas Folder.id s2.folders d = false

/-- File id d was a key of the first store's file map and is no longer a
key of the second store's file map. -/
def FileDeleted (s s2 : MemStorage) (d : Nat) : Prop :=
  mapHas File.id s.files d = true ∧ mapHas File.id s2.files d = false

/-- A rank function witnessing that the folder parent relation is acyclic:
each stored folder's rank is strictly below its parent's rank. -/
def RankOK (r : Nat → Nat) (s : MemStorage) : Prop :=
  ∀ g ∈ s.folders, ∀ p, g.parentId = some p → r g.id < r p

/-- Acyclicity of the folder parentId relation, stated through the
standard rank-function (topological-order) characterization of DAGs. -/
def AcyclicFolders (s : MemStorage) : Prop :=
  ∃ r : Nat → Nat, RankOK r s

/-- Postcondition of a completed deleteFolder run on folder `id`: the state
only shrank, the folder itself is gone, no remaining file or folder
references `id` or any folder deleted by the run, and no remaining share
references a file deleted by the run. (Shares referencing deleted folders
are NOT covered: the source never removes them.) -/
def DelPost (s : MemStorage) (id : Nat) (s2 : MemStorage) : Prop :=
  (∀ g ∈ s2.folders, g ∈ s.folders) ∧
  (∀ f ∈ s2.files, f ∈ s.files) ∧
  (∀ sh ∈ s2.shares, sh ∈ s.shares) ∧
  mapHas Folder.id s2.folders id = false ∧
  (∀ f ∈ s2.files, ∀ d, f.folderId = some d → d ≠ id ∧ ¬ FolderDeleted s s2 d) ∧
  (∀ g ∈ s2.folders, ∀ d, g.parentId = some d → d ≠ id ∧ ¬ FolderDeleted s s2 d) ∧
  (∀ sh ∈ s2.shares, ∀ fd, sh.fileId = some fd → ¬ FileDeleted s s2 fd)

/-- Postcondition of the subfolder loop over the snapshot list `ids`. -/
def SubsPost (s : MemStorage) (ids : List Nat) (s2 : MemStorage) : Prop :=
  (∀ g ∈ s2.folders, g ∈ s.folders) ∧
  (∀ f ∈ s2.files, f ∈ s.files) ∧
  (∀ sh ∈ s2.shares, sh ∈ s.shares) ∧
  (∀ i ∈ ids, mapHas Folder.id s2.folders i = false) ∧
  (∀ f ∈ s2.files, ∀ d, f.folderId = some d → ¬ FolderDeleted s s2 d) ∧
  (∀ g ∈ s2.folders, ∀ d, g.parentId = some d → ¬ FolderDeleted s s2 d) ∧
  (∀ sh ∈ s2.shares, ∀ fd, sh.fileId = some fd → ¬ FileDeleted s s2 fd)

/-- Postcondition of the file loop over the snapshot list `ids`: folders
untouched, files/shares only shrink, every listed file id is gone, and no
remaining share references a file deleted by the loop. -/
def FilesPost (s : MemStorage) (ids : List Nat) (s2 : MemStorage) : Prop :=
  s2.folders = s.folders ∧
  (∀ f ∈ s2.files, f ∈ s.files) ∧
  (∀ sh ∈ s2.shares, sh ∈ s.shares) ∧
  (∀ i ∈ ids, mapHas File.id s2.files i = false) ∧
  (∀ sh ∈ s2.shares, ∀ fd, sh.fileId = some fd → ¬ FileDeleted s s2 fd)

/-- Concrete two-folder tree: folder 2 sits inside folder 1. -/
def stateTreeEx : MemStorage :=
  { emptyStore with
    folders := [folderEx,
      { folderEx with id := 2, name := "sub", parentId := some 1 }]
    currentFolderId := 3 }

/-- Concrete file last accessed at time 50, for the recent-files example. -/
def fileRecEx : File :=
  { id := 1
    name := "a.pdf"
    type := "application/pdf"
    size := 10
    userId := 1
    folderId := none
    path := "p"
    starred := false
    isShared := false
    inTrash := false
    deletedAt := none
    lastAccessedAt := some 50
    createdAt := 0
    modifiedAt := 0 }

/-- Concrete state holding only `fileRecEx`. -/
def stateRecEx : MemStorage :=
  { emptyStore with files := [fileRecEx], currentFileId := 2 }

/-- Concrete user with zero storage used, for the accounting example. -/
def userAcctEx : User :=
  { id := 1
    username := "u@example.com"
    password := "pw"
    name := none
    avatar := none
    storageLimit := 15 * 1024 * 1024 * 1024
    storageUsed := 0
    createdAt := 0 }

/-- Concrete state holding only `userAcctEx`. -/
def stateAcctEx : MemStorage :=
  { emptyStore with users := [userAcctEx], currentUserId := 2 }

/-- Concrete op sequence: create a 5-byte file for user 1, then delete it. -/
def opsAcctEx : List FileOp :=
  [.create { name := "a", type := "t", size := 5, userId := 1, path := "p" } 0, .del 1]

section MapLemmas

variable {α : Type} {idOf : α → Nat}

theorem mapHas_iff {l : List α} {i : Nat} :
    mapHas idOf l i = true ↔ ∃ x ∈ l, idOf x = i := by
  simp [mapHas]

theorem mapHas_eq_false_iff {l : List α} {i : Nat} :
    mapHas idOf l i = false ↔ ∀ x ∈ l, idOf x ≠ i := by
  simp [mapHas]

theorem mapHas_of_mem {l : List α} {x : α} (h : x ∈ l) :
    mapHas idOf l (idOf x) = true :=
  mapHas_iff.mpr ⟨x, h, rfl⟩

theorem mapGet_eq_none_iff {l : List α} {i : Nat} :
    mapGet idOf l i = none ↔ mapHas idOf l i = false := by
  simp [mapGet, mapHas]

theorem mapGet_some {l : List α} {i : Nat} {x : α} (h : mapGet idOf l i = some x) :
    x ∈ l ∧ idOf x = i := by
  refine ⟨List.mem_of_find?_eq_some h, ?_⟩
  have := List.find?_some h
  simpa using this

theorem mapSet_of_not_has {l : List α} {i : Nat} {v : α} (h : mapHas idOf l i = false) :
    mapSet idOf l i v = l ++ [v] := by
  simp [mapSet, h]

theorem mem_mapSet {l : List α} {i : Nat} {v x : α} (h : x ∈ mapSet idOf l i v) :
    x ∈ l ∨ x = v := by
  unfold mapSet at h
  cases hc : mapHas idOf l i with
  | true =>
    simp only [hc, if_true] at h
    simp only [List.mem_map] at h
    obtain ⟨y, hy, hxy⟩ := h
    by_cases hyi : (idOf y == i) = true
    · simp only [hyi, if_true] at hxy
      exact Or.inr hxy.symm
    · simp only [hyi, if_false] at hxy
      exact Or.inl (hxy ▸ hy)
  | false =>
    simp only [hc, if_false, Bool.false_eq_true, List.mem_append, List.mem_singleton] at h
    rcases h with h | h
    · exact Or.inl h
    · exact Or.inr h

theorem mapGet_mapSet_self {l : List α} {i : Nat} {v : α} (hv : idOf v = i) :
    mapGet idOf (mapSet idOf l i v) i = some v := by
  unfold mapSet
  cases hc : mapHas idOf l i with
  | false =>
    have hnone : l.find? (fun x => idOf x == i) = none := by
      rw [List.find?_eq_none]
      intro x hx
      rw [mapHas_eq_false_iff] at hc
      simp [hc x hx]
    simp [mapGet, hc, List.find?_append, hnone, List.find?, hv]
  | true =>
    simp only [hc, if_true]
    have hfind : ∃ y, l.find? (fun x => idOf x == i) = some y := by
      cases hf : l.find? (fun x => idOf x == i) with
      | some y => exact ⟨y, rfl⟩
      | none =>
        rw [List.find?_eq_none] at hf
        obtain ⟨y, hy, hyi⟩ := mapHas_iff.mp hc
        exact absurd (by simp [hyi]) (hf y hy)
    obtain ⟨y, hy⟩ := hfind
    rw [mapGet, List.find?_map]
    have hcomp : ((fun x => idOf x == i) ∘ (fun x => if idOf x == i then v else x)) =
        (fun x => idOf x == i) := by
      funext x
      simp only [Function.comp]
      by_cases hxi : (idOf x == i) = true
      · rw [if_pos hxi, hxi, hv]
        simp
      · rw [if_neg hxi]
    rw [hcomp, hy]
    have hyi := List.find?_some hy
    show some (if idOf y == i then v else y) = some v
    rw [if_pos hyi]

theorem mapGet_mapSet_ne {l : List α} {i j : Nat} {v : α} (hv : idOf v = i) (hne : j ≠ i) :
    mapGet idOf (mapSet idOf l i v) j = mapGet idOf l j := by
  unfold mapSet
  cases hc : mapHas idOf l i with
  | false =>
    have hvj : (idOf v == j) = false := by
      rw [hv]
      exact beq_eq_false_iff_ne.mpr (Ne.symm hne)
    simp only [hc, if_false, Bool.false_eq_true]
    rw [mapGet, mapGet, List.find?_append]
    have h1 : List.find? (fun x => idOf x == j) [v] = none := by
      simp [List.find?, hvj]
    rw [h1]
    cases l.find? (fun x => idOf x == j) <;> rfl
  | true =>
    simp only [hc, if_true]
    rw [mapGet, mapGet, List.find?_map]
    have hcomp : ((fun x => idOf x == j) ∘ (fun x => if idOf x == i then v else x)) =
        (fun x => idOf x == j) := by
      funext x
      simp only [Function.comp]
      by_cases hxi : (idOf x == i) = true
      · have hx : idOf x = i := by simpa using hxi
        rw [if_pos hxi, hv, hx]
      · rw [if_neg hxi]
    rw [hcomp]
    cases hf : l.find? (fun x => idOf x == j) with
    | none => rfl
    | some y =>
      have hyj : idOf y = j := by simpa using List.find?_some hf
      have hyi : (idOf y == i) = false := by
        rw [hyj]
        exact beq_eq_false_iff_ne.mpr hne
      show some (if idOf y == i then v else y) = some y
      rw [if_neg (by simp [hyi])]

theorem mem_mapDelete {l : List α} {i : Nat} {x : α} :
    x ∈ mapDelete idOf l i ↔ x ∈ l ∧ idOf x ≠ i := by
  simp [mapDelete, List.mem_filter]

theorem mapHas_mapDelete_self {l : List α} {i : Nat} :
    mapHas idOf (mapDelete idOf l i) i = false := by
  rw [mapHas_eq_false_iff]
  intro x hx
  exact (mem_mapDelete.mp hx).2

theorem mapHas_mapDelete_ne {l : List α} {i j : Nat} (hne : i ≠ j) :
    mapHas idOf (mapDelete idOf l j) i = mapHas idOf l i := by
  cases hc : mapHas idOf l i with
  | true =>
    obtain ⟨x, hx, hxi⟩ := mapHas_iff.mp hc
    exact mapHas_iff.mpr ⟨x, mem_mapDelete.mpr ⟨hx, hxi ▸ hne⟩, hxi⟩
  | false =>
    rw [mapHas_eq_false_iff] at hc ⊢
    intro x hx
    exact hc x (mem_mapDelete.mp hx).1

theorem mapDelete_eq_self {l : List α} {i : Nat} (h : mapHas idOf l i = false) :
    mapDelete idOf l i = l := by
  rw [mapHas_eq_false_iff] at h
  rw [mapDelete, List.filter_eq_self]
  intro x hx
  simpa using h x hx

end MapLemmas

theorem updateUserStorageUsed_files (s : MemStorage) (u : Nat) (d : Int) :
    (updateUserStorageUsed s u d).2.files = s.files := by
  unfold updateUserStorageUsed
  cases mapGet User.id s.users u <;> rfl

theorem updateUserStorageUsed_folders (s : MemStorage) (u : Nat) (d : Int) :
    (updateUserStorageUsed s u d).2.folders = s.folders := by
  unfold updateUserStorageUsed
  cases mapGet User.id s.users u <;> rfl

theorem updateUserStorageUsed_shares (s : MemStorage) (u : Nat) (d : Int) :
    (updateUserStorageUsed s u d).2.shares = s.shares := by
  unfold updateUserStorageUsed
  cases mapGet User.id s.users u <;> rfl

theorem updateUserStorageUsed_currentFileId (s : MemStorage) (u : Nat) (d : Int) :
    (updateUserStorageUsed s u d).2.currentFileId = s.currentFileId := by
  unfold updateUserStorageUsed
  cases mapGet User.id s.users u <;> rfl

theorem createFile_files (s : MemStorage) (d : InsertFile) (now : Int) :
    (createFile s d now).2.files =
      mapSet File.id s.files s.currentFileId (createFile s d now).1 := by
  cases h : mapGet User.id s.users d.userId <;> simp [createFile, h]

theorem createFile_currentFileId (s : MemStorage) (d : InsertFile) (now : Int) :
    (createFile s d now).2.currentFileId = s.currentFileId + 1 := by
  cases h : mapGet User.id s.users d.userId <;> simp [createFile, h]

theorem createFile_folders (s : MemStorage) (d : InsertFile) (now : Int) :
    (createFile s d now).2.folders = s.folders := by
  cases h : mapGet User.id s.users d.userId <;> simp [createFile, h]

theorem createFile_shares (s : MemStorage) (d : InsertFile) (now : Int) :
    (createFile s d now).2.shares = s.shares := by
  cases h : mapGet User.id s.users d.userId <;> simp [createFile, h]

/-- C10: on an id absent from the relevant map, updateUser, updateFolder and
updateFile return undefined, deleteFile and deleteShare return false, and in
all five cases the store state — every entity map and every user's
storageUsed — is returned completely unchanged. -/
theorem c10_missing_id_noop :
    (∀ (s : MemStorage) (i : Nat) (d : UserPatch),
      mapGet User.id s.users i = none → updateUser s i d = (none, s)) ∧
    (∀ (s : MemStorage) (i : Nat) (d : FolderPatch),
      mapGet Folder.id s.folders i = none → updateFolder s i d = (none, s)) ∧
    (∀ (s : MemStorage) (i : Nat) (d : FilePatch) (now : Int),
      mapGet File.id s.files i = none → updateFile s i d now = (none, s)) ∧
    (∀ (s : MemStorage) (i : Nat),
      mapGet File.id s.files i = none → deleteFile s i = (false, s)) ∧
    (∀ (s : MemStorage) (i : Nat),
      mapHas Share.id s.shares i = false → deleteShare s i = (false, s)) := by
  refine ⟨?_, ?_, ?_, ?_, ?_⟩
  · intro s i d h
    simp [updateUser, h]
  · intro s i d h
    simp [updateFolder, h]
  · intro s i d now h
    simp [updateFile, h]
  · intro s i h
    simp [deleteFile, h]
  · intro s i h
    show (mapHas Share.id s.shares i, _) = (false, s)
    rw [h, mapDelete_eq_self h]

/-- C10 witness: on the initial store (which holds no folder, file or share
and only user 1) all five operations at id 99 are rejecting no-ops. -/
theorem c10_missing_id_noop_witness :
    updateUser (initMemStorage 0) 99 {} = (none, initMemStorage 0) ∧
    updateFolder (initMemStorage 0) 99 {} = (none, initMemStorage 0) ∧
    updateFile (initMemStorage 0) 99 {} 7 = (none, initMemStorage 0) ∧
    deleteFile (initMemStorage 0) 99 = (false, initMemStorage 0) ∧
    deleteShare (initMemStorage 0) 99 = (false, initMemStorage 0) :=
  ⟨c10_missing_id_noop.1 (initMemStorage 0) 99 {} rfl,
   c10_missing_id_noop.2.1 (initMemStorage 0) 99 {} rfl,
   c10_missing_id_noop.2.2.1 (initMemStorage 0) 99 {} 7 rfl,
   c10_missing_id_noop.2.2.2.1 (initMemStorage 0) 99 rfl,
   c10_missing_id_noop.2.2.2.2 (initMemStorage 0) 99 rfl⟩

/-- C5: when the share found for a token has an expiryDate strictly in the
past, getShareByToken still returns it, resolved into ShareWithDetails — the
store consults nothing time-related; expiry is enforced only by the
GET /api/shares/:token route, which answers 403 (`expired`) there. -/
theorem c5_expired_share_still_returned :
    ∀ (s : MemStorage) (tok : String) (now e : Int) (sh : Share),
      s.shares.find? (fun x => x.token == tok) = some sh →
      sh.expiryDate = some e → e < now →
      getShareByToken s tok = some (mkShareDetails s sh) ∧
      (mkShareDetails s sh).share = sh ∧
      getShareRoute s tok now = .expired := by
  intro s tok now e sh hfind hexp hlt
  refine ⟨by simp [getShareByToken, hfind], rfl, ?_⟩
  simp [getShareRoute, getShareByToken, hfind, mkShareDetails, hexp, hlt]

/-- C5 witness: in `stateShareEx` the share behind "tokEx" expired at time 5,
yet at time 10 the store still returns it while the route reports expiry. -/
theorem c5_expired_share_still_returned_witness :
    getShareByToken stateShareEx "tokEx" = some (mkShareDetails stateShareEx shareEx) ∧
    getShareRoute stateShareEx "tokEx" 10 = .expired := by
  have h := c5_expired_share_still_returned stateShareEx "tokEx" 10 5 shareEx (by decide) rfl
    (by decide)
  exact ⟨h.1, h.2.2⟩

/-- C4 counterexample: updating folder 1 of `stateFolderEx` (whose stored
modifiedAt is 0) with a pure rename leaves modifiedAt at 0 — updateFolder
takes no clock at all, so an update performed at time 100 does not stamp
modifiedAt to 100 as the claim requires. -/
theorem c4_counterexample :
    (updateFolder stateFolderEx 1 { name := some "renamed" }).1 =
      some { folderEx with name := "renamed" } ∧
    ({ folderEx with name := "renamed" } : Folder).modifiedAt = some 0 ∧
    (some (0 : Int) ≠ some (100 : Int)) := by
  refine ⟨rfl, rfl, by decide⟩

/-- C4 (amended): updateFolder performs only the shallow merge — every field
equals the patch value when provided and the old value otherwise, so
modifiedAt is NOT stamped (it changes only when the caller passes it, as the
PATCH route does); updateFile performs the shallow merge and in addition
always stamps modifiedAt to the call time. In both cases the merged record
is stored back under the same id and nothing else in the state changes
except updateFile's storage accounting when size changes. -/
theorem c4_amended :
    (∀ (s : MemStorage) (i : Nat) (d : FolderPatch) (g : Folder),
      mapGet Folder.id s.folders i = some g →
      ∃ g', (updateFolder s i d).1 = some g' ∧
        (updateFolder s i d).2 = { s with folders := mapSet Folder.id s.folders i g' } ∧
        g'.id = d.id.getD g.id ∧
        g'.name = d.name.getD g.name ∧
        g'.userId = d.userId.getD g.userId ∧
        g'.parentId = d.parentId.getD g.parentId ∧
        g'.inTrash = d.inTrash.getD g.inTrash ∧
        g'.deletedAt = d.deletedAt.getD g.deletedAt ∧
        g'.starred = d.starred.getD g.starred ∧
        g'.isShared = d.isShared.getD g.isShared ∧
        g'.createdAt = d.createdAt.getD g.createdAt ∧
        g'.modifiedAt = d.modifiedAt.getD g.modifiedAt) ∧
    (∀ (s : MemStorage) (i : Nat) (d : FilePatch) (now : Int) (f : File),
      mapGet File.id s.files i = some f →
      ∃ f', (updateFile s i d now).1 = some f' ∧
        (updateFile s i d now).2.files = mapSet File.id s.files i f' ∧
        (updateFile s i d now).2.folders = s.folders ∧
        (updateFile s i d now).2.shares = s.shares ∧
        f'.modifiedAt = now ∧
        f'.id = d.id.getD f.id ∧
        f'.name = d.name.getD f.name ∧
        f'.type = d.type.getD f.type ∧
        f'.size = d.size.getD f.size ∧
        f'.userId = d.userId.getD f.userId ∧
        f'.folderId = d.folderId.getD f.folderId ∧
        f'.path = d.path.getD f.path ∧
        f'.starred = d.starred.getD f.starred ∧
        f'.isShared = d.isShared.getD f.isShared ∧
        f'.inTrash = d.inTrash.getD f.inTrash ∧
        f'.deletedAt = d.deletedAt.getD f.deletedAt ∧
        f'.lastAccessedAt = d.lastAccessedAt.getD f.lastAccessedAt ∧
        f'.createdAt = d.createdAt.getD f.createdAt) := by
  constructor
  · intro s i d g hget
    refine ⟨mergeFolder g d, ?_, ?_, rfl, rfl, rfl, rfl, rfl, rfl, rfl, rfl, rfl, rfl⟩
    · simp [updateFolder, hget]
    · simp [updateFolder, hget]
  · intro s i d now f hget
    refine ⟨{ mergeFile f d with modifiedAt := now }, ?_, ?_, ?_, ?_,
      rfl, rfl, rfl, rfl, rfl, rfl, rfl, rfl, rfl, rfl, rfl, rfl, rfl, rfl⟩
    · simp [updateFile, hget]
    · simp only [updateFile, hget]
      cases hd : d.size with
      | none => rfl
      | some sz =>
        by_cases hsz : (sz != f.size) = true
        · simp [hsz, updateUserStorageUsed_files]
        · simp [hsz]
    · simp only [updateFile, hget]
      cases hd : d.size with
      | none => rfl
      | some sz =>
        by_cases hsz : (sz != f.size) = true
        · simp [hsz, updateUserStorageUsed_folders]
        · simp [hsz]
    · simp only [updateFile, hget]
      cases hd : d.size with
      | none => rfl
      | some sz =>
        by_cases hsz : (sz != f.size) = true
        · simp [hsz, updateUserStorageUsed_shares]
        · simp [hsz]

/-- C4 amended witness: renaming folder 1 of `stateFolderEx` merges only the
name; updating a file is exercised on the empty store extended with one
file via createFile in the C2 development below, here the folder half
suffices to discharge the hypothesis. -/
theorem c4_amended_witness :
    ∃ g', (updateFolder stateFolderEx 1 { name := some "renamed" }).1 = some g' ∧
      g'.name = "renamed" ∧ g'.modifiedAt = folderEx.modifiedAt := by
  obtain ⟨g', h1, _, _, hname, _, _, _, _, _, _, _, hmod⟩ :=
    c4_amended.1 stateFolderEx 1 { name := some "renamed" } folderEx rfl
  exact ⟨g', h1, by simpa using hname, by simpa using hmod⟩

/-- C3 counterexample: the constructor seeds the demo user at key 1 while
currentUserId also starts at 1, so the very first createUser call returns
id 1 — an id already present as a key of the users map, contradicting the
claim that no create* call ever returns an already-present id. -/
theorem c3_counterexample :
    (createUser (initMemStorage 0) { username := "alice", password := "pw" } 0).1.id = 1 ∧
    mapHas User.id (initMemStorage 0).users 1 = true :=
  ⟨rfl, rfl⟩

/-- C3 (amended): each create* call returns the current per-type counter
value and bumps that counter by one, so ids are monotonically increasing
per type; whenever every stored id of that type is below the counter, the
returned id is fresh (not already a key) and the property is preserved.
From construction this below-counter property holds for folders, files and
shares (nothing is pre-seeded), but it fails for users: the demo user is
pre-seeded at id 1 while the user counter starts at 1, so the first
createUser call collides with (and overwrites) the demo user. -/
theorem c3_amended :
    (∀ (s : MemStorage) (d : InsertUser) (now : Int), UsersBelow s →
      (createUser s d now).1.id = s.currentUserId ∧
      (createUser s d now).2.currentUserId = s.currentUserId + 1 ∧
      mapHas User.id s.users (createUser s d now).1.id = false ∧
      UsersBelow (createUser s d now).2) ∧
    (∀ (s : MemStorage) (d : InsertFolder) (now : Int), FoldersBelow s →
      (createFolder s d now).1.id = s.currentFolderId ∧
      (createFolder s d now).2.currentFolderId = s.currentFolderId + 1 ∧
      mapHas Folder.id s.folders (createFolder s d now).1.id = false ∧
      FoldersBelow (createFolder s d now).2) ∧
    (∀ (s : MemStorage) (d : InsertFile) (now : Int), FilesBelow s →
      (createFile s d now).1.id = s.currentFileId ∧
      (createFile s d now).2.currentFileId = s.currentFileId + 1 ∧
      mapHas File.id s.files (createFile s d now).1.id = false ∧
      FilesBelow (createFile s d now).2) ∧
    (∀ (s : MemStorage) (d : InsertShareData) (tok : String) (now : Int), SharesBelow s →
      (createShare s d tok now).1.id = s.currentShareId ∧
      (createShare s d tok now).2.currentShareId = s.currentShareId + 1 ∧
      mapHas Share.id s.shares (createShare s d tok now).1.id = false ∧
      SharesBelow (createShare s d tok now).2) ∧
    (∀ now : Int, FoldersBelow (initMemStorage now) ∧ FilesBelow (initMemStorage now) ∧
      SharesBelow (initMemStorage now) ∧ ¬ UsersBelow (initMemStorage now)) := by
  refine ⟨?_, ?_, ?_, ?_, ?_⟩
  · intro s d now hb
    have hfresh : mapHas User.id s.users s.currentUserId = false := by
      rw [mapHas_eq_false_iff]
      intro x hx
      exact Nat.ne_of_lt (hb x hx)
    refine ⟨rfl, rfl, hfresh, ?_⟩
    intro u hu
    show u.id < s.currentUserId + 1
    have hu2 : u ∈ mapSet User.id s.users s.currentUserId (createUser s d now).1 := hu
    have := mem_mapSet hu2
    rcases this with h | h
    · exact Nat.lt_succ_of_lt (hb u h)
    · rw [h]
      exact Nat.lt_succ_self _
  · intro s d now hb
    have hfresh : mapHas Folder.id s.folders s.currentFolderId = false := by
      rw [mapHas_eq_false_iff]
      intro x hx
      exact Nat.ne_of_lt (hb x hx)
    refine ⟨rfl, rfl, hfresh, ?_⟩
    intro g hg
    show g.id < s.currentFolderId + 1
    have hg2 : g ∈ mapSet Folder.id s.folders s.currentFolderId (createFolder s d now).1 := hg
    have := mem_mapSet hg2
    rcases this with h | h
    · exact Nat.lt_succ_of_lt (hb g h)
    · rw [h]
      exact Nat.lt_succ_self _
  · intro s d now hb
    have hfresh : mapHas File.id s.files s.currentFileId = false := by
      rw [mapHas_eq_false_iff]
      intro x hx
      exact Nat.ne_of_lt (hb x hx)
    have hid : (createFile s d now).1.id = s.currentFileId := by
      cases h : mapGet User.id s.users d.userId <;> simp [createFile, h]
    have hfiles := createFile_files s d now
    have hctr := createFile_currentFileId s d now
    refine ⟨hid, hctr, by rw [hid]; exact hfresh, ?_⟩
    intro f hf
    rw [hfiles] at hf
    show f.id < (createFile s d now).2.currentFileId
    rw [hctr]
    have := mem_mapSet hf
    rcases this with h | h
    · exact Nat.lt_succ_of_lt (hb f h)
    · rw [h, hid]
      exact Nat.lt_succ_self _
  · intro s d tok now hb
    have hfresh : mapHas Share.id s.shares s.currentShareId = false := by
      rw [mapHas_eq_false_iff]
      intro x hx
      exact Nat.ne_of_lt (hb x hx)
    refine ⟨rfl, rfl, hfresh, ?_⟩
    intro sh hsh
    show sh.id < s.currentShareId + 1
    have hsh2 : sh ∈ mapSet Share.id s.shares s.currentShareId (createShare s d tok now).1 := hsh
    have := mem_mapSet hsh2
    rcases this with h | h
    · exact Nat.lt_succ_of_lt (hb sh h)
    · rw [h]
      exact Nat.lt_succ_self _
  · intro now
    refine ⟨?_, ?_, ?_, ?_⟩
    · intro g hg
      simp [initMemStorage] at hg
    · intro f hf
      simp [initMemStorage] at hf
    · intro sh hsh
      simp [initMemStorage] at hsh
    · intro h
      have := h (demoUser now) (by simp [initMemStorage])
      simp [initMemStorage, demoUser] at this

/-- C6: POST /api/shares answers 400 and stores nothing unless exactly one
of fileId/folderId is truthy (in the source's truthiness checks an absent
id and the id 0 are both falsy); any share the call adds has exactly one of
fileId/folderId set, so when every stored share satisfies that, it still
holds after the call — never both, never neither. -/
theorem c6_exactly_one_target :
    ∀ (s : MemStorage) (u : Nat) (fileId folderId : Option Nat) (acc : Option String)
      (ad : Option Bool) (ed : Option Int) (tok : String) (now : Int),
      ((((truthyId fileId).isSome = false ∧ (truthyId folderId).isSome = false) ∨
        ((truthyId fileId).isSome = true ∧ (truthyId folderId).isSome = true)) →
        createShareRoute s u fileId folderId acc ad ed tok now = (.badRequest, s)) ∧
      (∀ sh, sh ∈ (createShareRoute s u fileId folderId acc ad ed tok now).2.shares →
        sh ∉ s.shares → ShareExactlyOne sh) ∧
      ((∀ sh ∈ s.shares, ShareExactlyOne sh) →
        ∀ sh ∈ (createShareRoute s u fileId folderId acc ad ed tok now).2.shares,
          ShareExactlyOne sh) := by
  intro s u fileId folderId acc ad ed tok now
  have h2 : ∀ sh, sh ∈ (createShareRoute s u fileId folderId acc ad ed tok now).2.shares →
      sh ∉ s.shares → ShareExactlyOne sh := by
    intro sh hmem hnot
    cases htf : truthyId fileId with
    | none =>
      cases htg : truthyId folderId with
      | none =>
        simp [createShareRoute, htf, htg] at hmem
        exact absurd hmem hnot
      | some j =>
        cases hm : mapGet Folder.id s.folders j with
        | none =>
          simp [createShareRoute, htf, htg, hm] at hmem
          exact absurd hmem hnot
        | some g =>
          by_cases hu : (g.userId == u) = true
          · simp [createShareRoute, createShare, htf, htg, hm, hu] at hmem
            rcases mem_mapSet hmem with h | h
            · exact absurd h hnot
            · rw [h]
              exact Or.inr ⟨rfl, rfl⟩
          · simp [createShareRoute, htf, htg, hm, hu] at hmem
            exact absurd hmem hnot
    | some i =>
      cases htg : truthyId folderId with
      | none =>
        cases hm : mapGet File.id s.files i with
        | none =>
          simp [createShareRoute, htf, htg, hm] at hmem
          exact absurd hmem hnot
        | some f =>
          by_cases hu : (f.userId == u) = true
          · simp [createShareRoute, createShare, htf, htg, hm, hu] at hmem
            rcases mem_mapSet hmem with h | h
            · exact absurd h hnot
            · rw [h]
              exact Or.inl ⟨rfl, rfl⟩
          · simp [createShareRoute, htf, htg, hm, hu] at hmem
            exact absurd hmem hnot
      | some j =>
        simp [createShareRoute, htf, htg] at hmem
        exact absurd hmem hnot
  refine ⟨?_, h2, ?_⟩
  · intro hcond
    rcases hcond with ⟨h1a, h1b⟩ | ⟨h1a, h1b⟩ <;> simp [createShareRoute, h1a, h1b]
  · intro hinv sh hmem
    by_cases hold : sh ∈ s.shares
    · exact hinv sh hold
    · exact h2 sh hmem hold

/-- C6 witness: on `stateShareEx` a request naming both file 1 and folder 1
is rejected with the store unchanged, and the stored shares all reference
exactly one target. -/
theorem c6_exactly_one_target_witness :
    createShareRoute stateShareEx 1 (some 1) (some 1) none none none "t" 0 =
      (.badRequest, stateShareEx) ∧
    createShareRoute stateShareEx 1 none none none none none "t" 0 =
      (.badRequest, stateShareEx) ∧
    ShareExactlyOne shareEx := by
  refine ⟨?_, ?_, ?_⟩
  · exact (c6_exactly_one_target stateShareEx 1 (some 1) (some 1) none none none "t" 0).1
      (Or.inr ⟨rfl, rfl⟩)
  · exact (c6_exactly_one_target stateShareEx 1 none none none none none "t" 0).1
      (Or.inl ⟨rfl, rfl⟩)
  · exact (c6_exactly_one_target stateShareEx 1 none none none none none "t" 0).2.2
      (by intro sh hsh
          simp [stateShareEx, emptyStore] at hsh
          rw [hsh]
          exact Or.inl ⟨rfl, rfl⟩) shareEx (by decide)

/-- C7: POST /api/folders, once the parent location is valid (no parent
given, or the given parent exists and belongs to the user): when some
folder of the same user under the same (normalized) parent already has the
same name after lower-casing both sides, the call answers 409 Conflict and
the store is unchanged; when no such sibling exists it creates exactly the
requested folder under the next folder id. The theorem quantifies over the
lower-casing function `low`, so it holds in particular for the actual
Unicode String.prototype.toLowerCase the source applies. -/
theorem c7_duplicate_sibling_conflict :
    ∀ (s : MemStorage) (low : String → String) (u : Nat) (name : String)
      (parentId : Option Nat) (now : Int),
      (parentId = none ∨
        ∃ p pf, parentId = some p ∧ mapGet Folder.id s.folders p = some pf ∧ pf.userId = u) →
      ((∃ g ∈ s.folders, g.userId = u ∧ g.parentId = truthyId parentId ∧
          low g.name = low name) →
        createFolderRoute s low u name parentId now = (.conflict, s)) ∧
      ((∀ g ∈ s.folders, g.userId = u → g.parentId = truthyId parentId →
          low g.name ≠ low name) →
        createFolderRoute s low u name parentId now =
          (.created (routeFolder u name parentId now s.currentFolderId),
            { s with
              folders := mapSet Folder.id s.folders s.currentFolderId
                (routeFolder u name parentId now s.currentFolderId)
              currentFolderId := s.currentFolderId + 1 })) := by
  intro s low u name parentId now hparent
  have hanyiff : ((getFoldersByUserId s u (truthyId parentId)).any
      (fun fw => low fw.folder.name == low name)) = true ↔
      ∃ g ∈ s.folders, g.userId = u ∧ g.parentId = truthyId parentId ∧
        low g.name = low name := by
    simp [getFoldersByUserId, folderStats, List.any_eq_true, List.mem_filter]
    tauto
  have hroute : createFolderRoute s low u name parentId now =
      (if (getFoldersByUserId s u (truthyId parentId)).any
          (fun fw => low fw.folder.name == low name)
        then (FolderCreateRes.conflict, s)
        else (.created (routeFolder u name parentId now s.currentFolderId),
          { s with
            folders := mapSet Folder.id s.folders s.currentFolderId
              (routeFolder u name parentId now s.currentFolderId)
            currentFolderId := s.currentFolderId + 1 })) := by
    rcases hparent with h | ⟨p, pf, hp, hget, hu⟩
    · simp [createFolderRoute, h, createFolder, routeFolder]
    · simp [createFolderRoute, hp, hget, hu, createFolder, routeFolder]
  constructor
  · intro hsib
    rw [hroute, if_pos (hanyiff.mpr hsib)]
  · intro hfresh
    have hfalse : ((getFoldersByUserId s u (truthyId parentId)).any
        (fun fw => low fw.folder.name == low name)) = false := by
      rw [← Bool.not_eq_true]
      intro hT
      obtain ⟨g, hg, hu, hp, hname⟩ := hanyiff.mp hT
      exact hfresh g hg hu hp hname
    rw [hroute, if_neg (by simp [hfalse])]

/-- C7 witness: instantiating the lower-casing parameter with the concrete
`asciiLower`, in `stateFolderEx` (user 1 owns root folder "docs") creating
"DOCS" at root yields Conflict with the store unchanged, while creating
the fresh name "pics" succeeds. -/
theorem c7_duplicate_sibling_conflict_witness :
    createFolderRoute stateFolderEx asciiLower 1 "DOCS" none 5 =
      (.conflict, stateFolderEx) ∧
    (createFolderRoute stateFolderEx asciiLower 1 "pics" none 5).1 =
      .created (routeFolder 1 "pics" none 5 2) := by
  constructor
  · exact (c7_duplicate_sibling_conflict stateFolderEx asciiLower 1 "DOCS" none 5
      (Or.inl rfl)).1 ⟨folderEx, by decide, by decide, by decide, by decide⟩
  · have h := (c7_duplicate_sibling_conflict stateFolderEx asciiLower 1 "pics" none 5
      (Or.inl rfl)).2 (by decide)
    rw [h]
    rfl

/-- C3 amended witness: on the empty store (all below-counter properties
hold), createUser returns the fresh id 1 and bumps the counter to 2. -/
theorem c3_amended_witness :
    (createUser emptyStore { username := "w", password := "p" } 0).1.id = 1 ∧
    mapHas User.id emptyStore.users
      (createUser emptyStore { username := "w", password := "p" } 0).1.id = false := by
  have h := c3_amended.1 emptyStore { username := "w", password := "p" } 0
    (by intro u hu; simp [emptyStore] at hu)
  exact ⟨h.1, h.2.2.1⟩

/-- C8: getRecentFiles u returns exactly u's files that are not in trash
and whose lastAccessedAt is present and within the last 30 days of the call
time (at or after now − 30 days): the returned files are a permutation of
that subset of the store, each carries its download URL, and the list is
sorted in descending order of lastAccessedAt (ties in either order). -/
theorem c8_recent_files :
    ∀ (s : MemStorage) (u : Nat) (now : Int),
      ((getRecentFiles s u now).map FileWithPath.file).Perm
        (s.files.filter (recentPred u now)) ∧
      (∀ fw ∈ getRecentFiles s u now, fw.url = downloadUrl fw.file.id) ∧
      (∀ f : File, (∃ fw ∈ getRecentFiles s u now, fw.file = f) ↔
        (f ∈ s.files ∧ f.userId = u ∧ f.inTrash = false ∧
          ∃ t, f.lastAccessedAt = some t ∧ now - thirtyDaysMs ≤ t)) ∧
      (getRecentFiles s u now).Sorted
        (fun a b => b.file.lastAccessedAt.getD 0 ≤ a.file.lastAccessedAt.getD 0) := by
  intro s u now
  have hmapfile : (getRecentFiles s u now).map FileWithPath.file =
      (s.files.filter (recentPred u now)).insertionSort recentLE := by
    rw [getRecentFiles, List.map_map]
    exact List.map_id'' (fun f => rfl) _
  have hperm := List.perm_insertionSort recentLE (s.files.filter (recentPred u now))
  have hpred : ∀ f : File, (recentPred u now f = true) ↔
      (f.userId = u ∧ f.inTrash = false ∧
        ∃ t, f.lastAccessedAt = some t ∧ now - thirtyDaysMs ≤ t) := by
    intro f
    simp only [recentPred, Bool.and_eq_true, beq_iff_eq, Bool.not_eq_true',
      decide_eq_true_eq]
    constructor
    · rintro ⟨⟨⟨hu, hsome⟩, hle⟩, htr⟩
      cases ht : f.lastAccessedAt with
      | none => rw [ht] at hsome; simp at hsome
      | some t =>
        rw [ht] at hle
        exact ⟨hu, htr, t, rfl, by simpa using hle⟩
    · rintro ⟨hu, htr, t, ht, hle⟩
      rw [ht]
      exact ⟨⟨⟨hu, rfl⟩, by simpa using hle⟩, htr⟩
  refine ⟨?_, ?_, ?_, ?_⟩
  · rw [hmapfile]
    exact hperm
  · intro fw hfw
    rw [getRecentFiles] at hfw
    obtain ⟨g, _, hfw⟩ := List.mem_map.mp hfw
    rw [← hfw]
    rfl
  · intro f
    constructor
    · rintro ⟨fw, hfw, hfile⟩
      have : f ∈ (getRecentFiles s u now).map FileWithPath.file :=
        List.mem_map.mpr ⟨fw, hfw, hfile⟩
      rw [hmapfile] at this
      have hf := hperm.mem_iff.mp this
      obtain ⟨hmem, hcond⟩ := List.mem_filter.mp hf
      exact ⟨hmem, (hpred f).mp hcond⟩
    · rintro ⟨hmem, hcond⟩
      have hf : f ∈ (s.files.filter (recentPred u now)).insertionSort recentLE :=
        hperm.mem_iff.mpr (List.mem_filter.mpr ⟨hmem, (hpred f).mpr hcond⟩)
      rw [← hmapfile] at hf
      obtain ⟨fw, hfw, hfile⟩ := List.mem_map.mp hf
      exact ⟨fw, hfw, hfile⟩
  · have hsorted := List.sorted_insertionSort recentLE (s.files.filter (recentPred u now))
    rw [getRecentFiles]
    rw [List.Sorted, List.pairwise_map]
    exact hsorted

theorem sumSizes_nil (u : Nat) : sumSizes [] u = 0 := rfl

theorem sumSizes_cons (x : File) (l : List File) (u : Nat) :
    sumSizes (x :: l) u = (if x.userId == u then x.size else 0) + sumSizes l u := by
  by_cases hx : (x.userId == u) = true
  · simp [sumSizes, List.filter_cons, hx]
  · simp [sumSizes, List.filter_cons, hx]

theorem sumSizes_append_singleton (l : List File) (x : File) (u : Nat) :
    sumSizes (l ++ [x]) u = sumSizes l u + (if x.userId == u then x.size else 0) := by
  induction l with
  | nil =>
    rw [List.nil_append, sumSizes_cons, sumSizes_nil]
    ring
  | cons y ys ih =>
    rw [List.cons_append, sumSizes_cons, ih, sumSizes_cons]
    ring

theorem sumSizes_nonneg (l : List File) (u : Nat)
    (h : ∀ f ∈ l, f.userId = u → 0 ≤ f.size) : 0 ≤ sumSizes l u := by
  induction l with
  | nil => simp [sumSizes_nil]
  | cons x xs ih =>
    rw [sumSizes_cons]
    have hxs := ih (fun f hf => h f (List.mem_cons_of_mem _ hf))
    by_cases hx : (x.userId == u) = true
    · have hx0 := h x (List.mem_cons_self _ _) (by simpa using hx)
      rw [if_pos hx]
      exact add_nonneg hx0 hxs
    · rw [if_neg hx]
      simpa using hxs

theorem sumSizes_mapDelete (l : List File) (i : Nat) (f0 : File) (u : Nat)
    (hnd : (l.map File.id).Nodup) (hfind : mapGet File.id l i = some f0) :
    sumSizes (mapDelete File.id l i) u =
      sumSizes l u - (if f0.userId == u then f0.size else 0) := by
  induction l with
  | nil => simp [mapGet, List.find?] at hfind
  | cons x xs ih =>
    rw [List.map_cons, List.nodup_cons] at hnd
    by_cases hx : (x.id == i) = true
    · have hxid : x.id = i := by simpa using hx
      have hfx : List.find? (fun y => y.id == i) (x :: xs) = some x :=
        List.find?_cons_of_pos xs hx
      have hf0 : f0 = x := by
        rw [mapGet, hfx] at hfind
        exact (Option.some.inj hfind).symm
      have hdel : mapDelete File.id (x :: xs) i = mapDelete File.id xs i := by
        simp [mapDelete, List.filter_cons, hxid]
      have hxsdel : mapDelete File.id xs i = xs := by
        apply mapDelete_eq_self
        rw [mapHas_eq_false_iff]
        intro y hy hyi
        exact hnd.1 (by rw [hxid, ← hyi]; exact List.mem_map_of_mem File.id hy)
      rw [hdel, hxsdel, sumSizes_cons, hf0]
      ring
    · have hxid : x.id ≠ i := by simpa using hx
      have hfx : List.find? (fun y => y.id == i) (x :: xs) =
          List.find? (fun y => y.id == i) xs :=
        List.find?_cons_of_neg xs hx
      have hfind' : mapGet File.id xs i = some f0 := by
        rw [mapGet] at hfind ⊢
        rwa [hfx] at hfind
      have hdel : mapDelete File.id (x :: xs) i = x :: mapDelete File.id xs i := by
        simp [mapDelete, List.filter_cons, hxid]
      rw [hdel, sumSizes_cons, sumSizes_cons, ih hnd.2 hfind']
      ring

theorem createFile_users_spec (s : MemStorage) (d : InsertFile) (now : Int) :
    (createFile s d now).2.users =
      (match mapGet User.id s.users d.userId with
        | none => s.users
        | some usr => mapSet User.id s.users usr.id
            { usr with storageUsed := usr.storageUsed + d.size }) := by
  cases h : mapGet User.id s.users d.userId <;> simp [createFile, h]

theorem deleteFile_users_eq (s : MemStorage) (i : Nat) (f0 : File)
    (hfi : mapGet File.id s.files i = some f0) :
    (deleteFile s i).2.users = (updateUserStorageUsed s f0.userId (-f0.size)).2.users := by
  simp [deleteFile, hfi]

theorem deleteFile_files_eq (s : MemStorage) (i : Nat) (f0 : File)
    (hfi : mapGet File.id s.files i = some f0) :
    (deleteFile s i).2.files = mapDelete File.id s.files i := by
  simp [deleteFile, hfi, updateUserStorageUsed_files]

theorem deleteFile_currentFileId (s : MemStorage) (i : Nat) :
    (deleteFile s i).2.currentFileId = s.currentFileId := by
  cases hfi : mapGet File.id s.files i with
  | none => simp [deleteFile, hfi]
  | some f0 => simp [deleteFile, hfi, updateUserStorageUsed_currentFileId]

theorem deleteFile_user_delta (s : MemStorage) (u i : Nat) (usr : User) (f0 : File)
    (hu : mapGet User.id s.users u = some usr)
    (hfi : mapGet File.id s.files i = some f0)
    (hfu : f0.userId = u)
    (hge : 0 ≤ usr.storageUsed + -f0.size) :
    mapGet User.id (deleteFile s i).2.users u =
      some { usr with storageUsed := usr.storageUsed + -f0.size } := by
  rw [deleteFile_users_eq s i f0 hfi, hfu]
  have hid := (mapGet_some hu).2
  simp only [updateUserStorageUsed, hu]
  rw [if_neg (by omega)]
  rw [← hid]
  exact mapGet_mapSet_self rfl

theorem applyFileOp_inv (u : Nat) (s : MemStorage) (op : FileOp) (hop : opSizeOK op)
    (husr : ∃ usr, mapGet User.id s.users u = some usr ∧
      usr.storageUsed = userFilesSize s u)
    (hnn : ∀ f ∈ s.files, f.userId = u → 0 ≤ f.size)
    (hwf : FilesWF s) :
    (∃ usr', mapGet User.id (applyFileOp s op).users u = some usr' ∧
      usr'.storageUsed = userFilesSize (applyFileOp s op) u) ∧
    (∀ f ∈ (applyFileOp s op).files, f.userId = u → 0 ≤ f.size) ∧
    FilesWF (applyFileOp s op) := by
  obtain ⟨usr, hu, hacct⟩ := husr
  obtain ⟨hbelow, hnd⟩ := hwf
  cases op with
  | create d now =>
    have happ : applyFileOp s (.create d now) = (createFile s d now).2 := rfl
    have hfresh : mapHas File.id s.files s.currentFileId = false := by
      rw [mapHas_eq_false_iff]
      intro x hx
      exact Nat.ne_of_lt (hbelow x hx)
    have happend : (createFile s d now).2.files = s.files ++ [(createFile s d now).1] := by
      rw [createFile_files, mapSet_of_not_has hfresh]
    have hidnew : (createFile s d now).1.id = s.currentFileId := by
      cases h : mapGet User.id s.users d.userId <;> simp [createFile, h]
    have husernew : (createFile s d now).1.userId = d.userId := by
      cases h : mapGet User.id s.users d.userId <;> simp [createFile, h]
    have hsizenew : (createFile s d now).1.size = d.size := by
      cases h : mapGet User.id s.users d.userId <;> simp [createFile, h]
    have hctr := createFile_currentFileId s d now
    have hsum : userFilesSize (createFile s d now).2 u =
        userFilesSize s u +
          (if d.userId == u then d.size else 0) := by
      show sumSizes (createFile s d now).2.files u = _
      rw [happend, sumSizes_append_singleton, husernew, hsizenew]
      rfl
    rw [happ]
    refine ⟨?_, ?_, ?_, ?_⟩
    · by_cases hdu : d.userId = u
      · have hspec : (createFile s d now).2.users =
            mapSet User.id s.users usr.id
              { usr with storageUsed := usr.storageUsed + d.size } := by
          rw [createFile_users_spec s d now, hdu, hu]
        have hid := (mapGet_some hu).2
        refine ⟨{ usr with storageUsed := usr.storageUsed + d.size }, ?_, ?_⟩
        · rw [hspec, ← hid]
          exact mapGet_mapSet_self rfl
        · show usr.storageUsed + d.size = _
          rw [hsum, hacct, if_pos (by simp [hdu])]
      · refine ⟨usr, ?_, ?_⟩
        · rw [createFile_users_spec s d now]
          cases hw : mapGet User.id s.users d.userId with
          | none => exact hu
          | some w =>
            have hwid := (mapGet_some hw).2
            have hvne : u ≠ w.id := by rw [hwid]; exact fun h => hdu h.symm
            show mapGet User.id (mapSet User.id s.users w.id
              { w with storageUsed := w.storageUsed + d.size }) u = some usr
            have hvid : ({ w with storageUsed := w.storageUsed + d.size } : User).id = w.id :=
              rfl
            rw [mapGet_mapSet_ne hvid hvne]
            exact hu
        · rw [hsum, hacct, if_neg (by simp [hdu])]
          ring
    · intro f hf hfu
      rw [happend] at hf
      rcases List.mem_append.mp hf with h | h
      · exact hnn f h hfu
      · rw [List.mem_singleton.mp h, hsizenew]
        exact hop
    · intro f hf
      rw [happend] at hf
      rw [hctr]
      rcases List.mem_append.mp hf with h | h
      · exact Nat.lt_succ_of_lt (hbelow f h)
      · rw [List.mem_singleton.mp h, hidnew]
        exact Nat.lt_succ_self _
    · rw [happend, List.map_append]
      rw [List.nodup_append]
      refine ⟨hnd, List.nodup_singleton _, ?_⟩
      intro a ha hb
      rw [List.map_singleton, List.mem_singleton] at hb
      rw [hb, hidnew] at ha
      obtain ⟨f, hf, hfid⟩ := List.mem_map.mp ha
      exact Nat.ne_of_lt (hbelow f hf) hfid
  | del i =>
    have happ : applyFileOp s (.del i) = (deleteFile s i).2 := rfl
    rw [happ]
    cases hfi : mapGet File.id s.files i with
    | none =>
      have hnoop : deleteFile s i = (false, s) := by simp [deleteFile, hfi]
      rw [hnoop]
      exact ⟨⟨usr, hu, hacct⟩, hnn, hbelow, hnd⟩
    | some f0 =>
      have hfiles := deleteFile_files_eq s i f0 hfi
      have hctr := deleteFile_currentFileId s i
      have hsub := sumSizes_mapDelete s.files i f0 u hnd hfi
      have hsum' : userFilesSize (deleteFile s i).2 u =
          userFilesSize s u - (if f0.userId == u then f0.size else 0) := by
        show sumSizes (deleteFile s i).2.files u = _
        rw [hfiles, hsub]
        rfl
      refine ⟨?_, ?_, ?_, ?_⟩
      · by_cases hfu : f0.userId = u
        · have h2 : 0 ≤ sumSizes (mapDelete File.id s.files i) u :=
            sumSizes_nonneg _ u (fun f hf hfu2 => hnn f (mem_mapDelete.mp hf).1 hfu2)
          have hif : (if f0.userId == u then f0.size else 0) = f0.size := by simp [hfu]
          have hge : 0 ≤ usr.storageUsed + -f0.size := by
            rw [hacct]
            rw [hif] at hsub
            have : userFilesSize s u = sumSizes s.files u := rfl
            omega
          refine ⟨{ usr with storageUsed := usr.storageUsed + -f0.size },
            deleteFile_user_delta s u i usr f0 hu hfi hfu hge, ?_⟩
          show usr.storageUsed + -f0.size = _
          rw [hsum', hacct, hif]
          ring
        · refine ⟨usr, ?_, ?_⟩
          · rw [deleteFile_users_eq s i f0 hfi]
            cases hw : mapGet User.id s.users f0.userId with
            | none => simp [updateUserStorageUsed, hw, hu]
            | some w =>
              have hwid := (mapGet_some hw).2
              have hvne : u ≠ f0.userId := fun h => hfu h.symm
              simp only [updateUserStorageUsed, hw]
              show mapGet User.id (mapSet User.id s.users f0.userId
                { w with storageUsed := if w.storageUsed + -f0.size < 0 then 0
                    else w.storageUsed + -f0.size }) u = some usr
              have hvid : ({ w with storageUsed := if w.storageUsed + -f0.size < 0 then 0
                  else w.storageUsed + -f0.size } : User).id = f0.userId := hwid
              rw [mapGet_mapSet_ne hvid hvne]
              exact hu
          · rw [hsum', hacct, if_neg (by simp [hfu])]
            ring
      · intro f hf hfu
        rw [hfiles] at hf
        exact hnn f (mem_mapDelete.mp hf).1 hfu
      · intro f hf
        rw [hfiles] at hf
        rw [hctr]
        exact hbelow f (mem_mapDelete.mp hf).1
      · rw [hfiles]
        have hsl : List.Sublist ((mapDelete File.id s.files i).map File.id)
            (s.files.map File.id) :=
          (List.filter_sublist _).map File.id
        exact hnd.sublist hsl

theorem applyFileOps_inv (u : Nat) : ∀ (ops : List FileOp) (s : MemStorage),
    (∀ op ∈ ops, opSizeOK op) →
    (∃ usr, mapGet User.id s.users u = some usr ∧
      usr.storageUsed = userFilesSize s u) →
    (∀ f ∈ s.files, f.userId = u → 0 ≤ f.size) →
    FilesWF s →
    ∃ usr', mapGet User.id (applyFileOps s ops).users u = some usr' ∧
      usr'.storageUsed = userFilesSize (applyFileOps s ops) u := by
  intro ops
  induction ops with
  | nil =>
    intro s _ h _ _
    exact h
  | cons op rest ih =>
    intro s hops hacct hnn hwf
    have hstep := applyFileOp_inv u s op (hops op (List.mem_cons_self _ _)) hacct hnn hwf
    show ∃ usr', mapGet User.id (applyFileOps (applyFileOp s op) rest).users u = some usr' ∧
      usr'.storageUsed = userFilesSize (applyFileOps (applyFileOp s op) rest) u
    exact ih _ (fun o ho => hops o (List.mem_cons_of_mem _ ho)) hstep.1 hstep.2.1 hstep.2.2

/-- C2: starting from a store whose user u exists with storageUsed equal to
the sum of sizes of u's files (all non-negative, file keys well formed),
any sequence of createFile/deleteFile operations with non-negative created
sizes leaves u's storageUsed equal to the sum of sizes of u's
currently-existing files; in particular createFile adds exactly the file's
size to the owner's storageUsed, and deleteFile of an existing file of u
subtracts exactly that file's size (the clamp at 0 never fires under the
invariant). -/
theorem c2_storage_accounting :
    (∀ (ops : List FileOp) (s : MemStorage) (u : Nat) (usr : User),
      mapGet User.id s.users u = some usr →
      usr.storageUsed = userFilesSize s u →
      (∀ f ∈ s.files, f.userId = u → 0 ≤ f.size) →
      FilesWF s →
      (∀ op ∈ ops, opSizeOK op) →
      ∃ usr', mapGet User.id (applyFileOps s ops).users u = some usr' ∧
        usr'.storageUsed = userFilesSize (applyFileOps s ops) u) ∧
    (∀ (s : MemStorage) (d : InsertFile) (now : Int) (usr : User),
      mapGet User.id s.users d.userId = some usr →
      mapGet User.id (createFile s d now).2.users d.userId =
        some { usr with storageUsed := usr.storageUsed + d.size }) ∧
    (∀ (s : MemStorage) (u i : Nat) (usr : User) (f0 : File),
      mapGet User.id s.users u = some usr →
      mapGet File.id s.files i = some f0 →
      f0.userId = u →
      usr.storageUsed = userFilesSize s u →
      (∀ f ∈ s.files, f.userId = u → 0 ≤ f.size) →
      (s.files.map File.id).Nodup →
      ∃ usr', mapGet User.id (deleteFile s i).2.users u = some usr' ∧
        usr'.storageUsed = usr.storageUsed - f0.size) := by
  refine ⟨?_, ?_, ?_⟩
  · intro ops s u usr hu hacct hnn hwf hops
    exact applyFileOps_inv u ops s hops ⟨usr, hu, hacct⟩ hnn hwf
  · intro s d now usr h
    have hid := (mapGet_some h).2
    have hspec : (createFile s d now).2.users =
        mapSet User.id s.users usr.id
          { usr with storageUsed := usr.storageUsed + d.size } := by
      rw [createFile_users_spec s d now, h]
    rw [hspec, ← hid]
    exact mapGet_mapSet_self rfl
  · intro s u i usr f0 hu hfi hfu hacct hnn hnd
    have hsub := sumSizes_mapDelete s.files i f0 u hnd hfi
    have hif : (if f0.userId == u then f0.size else 0) = f0.size := by simp [hfu]
    have h2 : 0 ≤ sumSizes (mapDelete File.id s.files i) u :=
      sumSizes_nonneg _ u (fun f hf hfu2 => hnn f (mem_mapDelete.mp hf).1 hfu2)
    have hge : 0 ≤ usr.storageUsed + -f0.size := by
      rw [hacct]
      rw [hif] at hsub
      have : userFilesSize s u = sumSizes s.files u := rfl
      omega
    refine ⟨{ usr with storageUsed := usr.storageUsed + -f0.size },
      deleteFile_user_delta s u i usr f0 hu hfi hfu hge, ?_⟩
    show usr.storageUsed + -f0.size = _
    ring

/-- C2 witness: user 1 starts with storageUsed 0 and no files; creating a
5-byte file and then deleting it leaves storageUsed equal to the (empty)
sum of the user's file sizes. -/
theorem c2_storage_accounting_witness :
    (mapGet User.id (applyFileOps stateAcctEx opsAcctEx).users 1).map User.storageUsed =
      some (userFilesSize (applyFileOps stateAcctEx opsAcctEx) 1) := by
  obtain ⟨usr', husr', hacct'⟩ := c2_storage_accounting.1 opsAcctEx stateAcctEx 1 userAcctEx
    rfl (by decide) (by intro f hf; simp [stateAcctEx, emptyStore] at hf)
    (by constructor
        · intro f hf
          simp [stateAcctEx, emptyStore] at hf
        · simp [stateAcctEx, emptyStore])
    (by intro op hop
        simp [opsAcctEx] at hop
        rcases hop with rfl | rfl
        · exact (by decide : (0 : Int) ≤ 5)
        · exact True.intro)
  rw [husr', Option.map_some', hacct']

/-- C8 witness: the single recent file of `stateRecEx` is returned with its
download URL attached. -/
theorem c8_recent_files_witness :
    (addUrl fileRecEx).url = downloadUrl (addUrl fileRecEx).file.id :=
  (c8_recent_files stateRecEx 1 60).2.1 (addUrl fileRecEx) (by decide)

theorem deleteFile_folders_eq (s : MemStorage) (i : Nat) :
    (deleteFile s i).2.folders = s.folders := by
  cases hfi : mapGet File.id s.files i with
  | none => simp [deleteFile, hfi]
  | some f0 => simp [deleteFile, hfi, updateUserStorageUsed_folders]

theorem deleteFile_shares_eq (s : MemStorage) (i : Nat) (f0 : File)
    (hfi : mapGet File.id s.files i = some f0) :
    (deleteFile s i).2.shares = s.shares.filter (fun sh => sh.fileId != some i) := by
  simp [deleteFile, hfi, updateUserStorageUsed_shares]

theorem deleteFile_post (s : MemStorage) (i : Nat) :
    (deleteFile s i).2.folders = s.folders ∧
    (∀ f ∈ (deleteFile s i).2.files, f ∈ s.files) ∧
    (∀ sh ∈ (deleteFile s i).2.shares, sh ∈ s.shares) ∧
    mapHas File.id (deleteFile s i).2.files i = false ∧
    (∀ sh ∈ (deleteFile s i).2.shares, ∀ fd, sh.fileId = some fd →
      ¬ FileDeleted s (deleteFile s i).2 fd) := by
  cases hfi : mapGet File.id s.files i with
  | none =>
    have hnoop : deleteFile s i = (false, s) := by simp [deleteFile, hfi]
    rw [hnoop]
    refine ⟨rfl, fun f h => h, fun sh h => h, mapGet_eq_none_iff.mp hfi, ?_⟩
    rintro sh _ fd _ ⟨h1, h2⟩
    rw [h1] at h2
    exact Bool.noConfusion h2
  | some f0 =>
    have hfiles := deleteFile_files_eq s i f0 hfi
    have hfolders := deleteFile_folders_eq s i
    have hshares := deleteFile_shares_eq s i f0 hfi
    refine ⟨hfolders, ?_, ?_, ?_, ?_⟩
    · intro f h
      rw [hfiles] at h
      exact (mem_mapDelete.mp h).1
    · intro sh h
      rw [hshares] at h
      exact (List.mem_filter.mp h).1
    · rw [hfiles]
      exact mapHas_mapDelete_self
    · rintro sh hsh fd hfd ⟨h1, h2⟩
      by_cases hfdi : fd = i
      · rw [hshares] at hsh
        have hcond := (List.mem_filter.mp hsh).2
        rw [hfd, hfdi] at hcond
        simp at hcond
      · rw [hfiles, mapHas_mapDelete_ne hfdi, h1] at h2
        exact Bool.noConfusion h2

theorem deleteFilesIn_post : ∀ (ids : List Nat) (s : MemStorage),
    FilesPost s ids (deleteFilesIn s ids) := by
  intro ids
  induction ids with
  | nil =>
    intro s
    refine ⟨rfl, fun f h => h, fun sh h => h, ?_, ?_⟩
    · intro i h
      exact absurd h (List.not_mem_nil i)
    · rintro sh _ fd _ ⟨h1, h2⟩
      have h2' : mapHas File.id s.files fd = false := h2
      rw [h1] at h2'
      exact Bool.noConfusion h2'
  | cons i rest ih =>
    intro s
    obtain ⟨hfo1, hfi1, hsh1, hhas1, href1⟩ := deleteFile_post s i
    obtain ⟨hfo2, hfi2, hsh2, hhas2, href2⟩ := ih (deleteFile s i).2
    refine ⟨?_, ?_, ?_, ?_, ?_⟩
    · show (deleteFilesIn (deleteFile s i).2 rest).folders = s.folders
      rw [hfo2, hfo1]
    · intro f h
      exact hfi1 f (hfi2 f h)
    · intro sh h
      exact hsh1 sh (hsh2 sh h)
    · intro j hj
      rcases List.mem_cons.mp hj with h | hjr
      · subst h
        cases hc : mapHas File.id (deleteFilesIn (deleteFile s j).2 rest).files j with
        | false => exact hc
        | true =>
          obtain ⟨f, hf, hfid⟩ := mapHas_iff.mp hc
          have hmem1 : f ∈ (deleteFile s j).2.files := hfi2 f hf
          have hmem2 : mapHas File.id (deleteFile s j).2.files f.id = true :=
            mapHas_of_mem hmem1
          rw [hfid, hhas1] at hmem2
          exact Bool.noConfusion hmem2
      · exact hhas2 j hjr
    · rintro sh hsh fd hfd ⟨h1, h2⟩
      cases hmid : mapHas File.id (deleteFile s i).2.files fd with
      | true => exact href2 sh hsh fd hfd ⟨hmid, h2⟩
      | false => exact href1 sh (hsh2 sh hsh) fd hfd ⟨h1, hmid⟩

theorem delSubs_post (del : MemStorage → Nat → Option (Bool × MemStorage))
    (hdel : ∀ t i b t2, del t i = some (b, t2) → DelPost t i t2) :
    ∀ (ids : List Nat) (s s2 : MemStorage),
      delSubs del s ids = some s2 → SubsPost s ids s2 := by
  intro ids
  induction ids with
  | nil =>
    intro s s2 h
    have h' : s = s2 := Option.some.inj h
    subst h'
    refine ⟨fun g h => h, fun f h => h, fun sh h => h, ?_, ?_, ?_, ?_⟩
    · intro i h
      exact absurd h (List.not_mem_nil i)
    · rintro f _ d _ ⟨h1, h2⟩
      rw [h1] at h2
      exact Bool.noConfusion h2
    · rintro g _ d _ ⟨h1, h2⟩
      rw [h1] at h2
      exact Bool.noConfusion h2
    · rintro sh _ fd _ ⟨h1, h2⟩
      rw [h1] at h2
      exact Bool.noConfusion h2
  | cons i rest ih =>
    intro s s2 h
    cases hdi : del s i with
    | none =>
      simp only [delSubs, hdi] at h
      exact Option.noConfusion h
    | some bu =>
      obtain ⟨b, u⟩ := bu
      simp only [delSubs, hdi] at h
      obtain ⟨gmono1, fmono1, shmono1, hgone1, fref1, gref1, sref1⟩ := hdel s i b u hdi
      obtain ⟨gmono2, fmono2, shmono2, hlist2, fref2, gref2, sref2⟩ := ih u s2 h
      refine ⟨?_, ?_, ?_, ?_, ?_, ?_, ?_⟩
      · intro g hg
        exact gmono1 g (gmono2 g hg)
      · intro f hf
        exact fmono1 f (fmono2 f hf)
      · intro sh hs
        exact shmono1 sh (shmono2 sh hs)
      · intro j hj
        rcases List.mem_cons.mp hj with hji | hjr
        · subst hji
          cases hc : mapHas Folder.id s2.folders j with
          | false => rfl
          | true =>
            obtain ⟨g, hg, hgid⟩ := mapHas_iff.mp hc
            have hmem2 : mapHas Folder.id u.folders g.id = true :=
              mapHas_of_mem (gmono2 g hg)
            rw [hgid, hgone1] at hmem2
            exact Bool.noConfusion hmem2
        · exact hlist2 j hjr
      · rintro f hf d hd ⟨h1, h2⟩
        cases hmid : mapHas Folder.id u.folders d with
        | true => exact fref2 f hf d hd ⟨hmid, h2⟩
        | false => exact (fref1 f (fmono2 f hf) d hd).2 ⟨h1, hmid⟩
      · rintro g hg d hd ⟨h1, h2⟩
        cases hmid : mapHas Folder.id u.folders d with
        | true => exact gref2 g hg d hd ⟨hmid, h2⟩
        | false => exact (gref1 g (gmono2 g hg) d hd).2 ⟨h1, hmid⟩
      · rintro sh hs fd hfd ⟨h1, h2⟩
        cases hmid : mapHas File.id u.files fd with
        | true => exact sref2 sh hs fd hfd ⟨hmid, h2⟩
        | false => exact sref1 sh (shmono2 sh hs) fd hfd ⟨h1, hmid⟩

theorem deleteFolderF_post : ∀ (fuel : Nat) (s : MemStorage) (fid : Nat) (b : Bool)
    (s2 : MemStorage), deleteFolderF fuel s fid = some (b, s2) → DelPost s fid s2 := by
  intro fuel
  induction fuel with
  | zero =>
    intro s fid b s2 h
    exact Option.noConfusion h
  | succ n ih =>
    intro s fid b s2 h
    simp only [deleteFolderF] at h
    cases hds : delSubs (deleteFolderF n) (deleteFilesIn s (folderFileIds s fid))
        (subfolderIds (deleteFilesIn s (folderFileIds s fid)) fid) with
    | none =>
      rw [hds] at h
      exact Option.noConfusion h
    | some v =>
      rw [hds] at h
      have hpair := Option.some.inj h
      have hs2 : { v with folders := mapDelete Folder.id v.folders fid } = s2 :=
        congrArg Prod.snd hpair
      subst hs2
      obtain ⟨hfoeq, hfmono0, hshmono0, hflist, hsref0⟩ :=
        deleteFilesIn_post (folderFileIds s fid) s
      obtain ⟨gmono2, fmono2, shmono2, hlist2, fref2, gref2, sref2⟩ :=
        delSubs_post (deleteFolderF n) (fun t i b t2 hh => ih t i b t2 hh)
          (subfolderIds (deleteFilesIn s (folderFileIds s fid)) fid)
          (deleteFilesIn s (folderFileIds s fid)) v hds
      refine ⟨?_, ?_, ?_, ?_, ?_, ?_, ?_⟩
      · intro g hg
        have hgv : g ∈ v.folders := (mem_mapDelete.mp hg).1
        have := gmono2 g hgv
        rw [hfoeq] at this
        exact this
      · intro f hf
        exact hfmono0 f (fmono2 f hf)
      · intro sh hs
        exact hshmono0 sh (shmono2 sh hs)
      · exact mapHas_mapDelete_self
      · intro f hf d hd
        have hfv : f ∈ v.files := hf
        have hft : f ∈ (deleteFilesIn s (folderFileIds s fid)).files := fmono2 f hfv
        have hfs : f ∈ s.files := hfmono0 f hft
        have hne : d ≠ fid := by
          intro hdid
          have hd' : f.folderId = some fid := by rw [← hdid]; exact hd
          have hinlist : f.id ∈ folderFileIds s fid :=
            List.mem_map.mpr ⟨f, List.mem_filter.mpr ⟨hfs, by simp [hd']⟩, rfl⟩
          have hfalse := hflist f.id hinlist
          have htrue : mapHas File.id (deleteFilesIn s (folderFileIds s fid)).files f.id =
              true := mapHas_of_mem hft
          rw [hfalse] at htrue
          exact Bool.noConfusion htrue
        refine ⟨hne, ?_⟩
        rintro ⟨h1, h2⟩
        have h2v : mapHas Folder.id v.folders d = false := by
          have : mapHas Folder.id (mapDelete Folder.id v.folders fid) d =
              mapHas Folder.id v.folders d := mapHas_mapDelete_ne hne
          rw [← this]
          exact h2
        have h1t : mapHas Folder.id (deleteFilesIn s (folderFileIds s fid)).folders d = true := by
          rw [hfoeq]
          exact h1
        exact fref2 f hfv d hd ⟨h1t, h2v⟩
      · intro g hg d hd
        obtain ⟨hgv, hgne⟩ := mem_mapDelete.mp hg
        have hgt : g ∈ (deleteFilesIn s (folderFileIds s fid)).folders := gmono2 g hgv
        have hne : d ≠ fid := by
          intro hdid
          have hd' : g.parentId = some fid := by rw [← hdid]; exact hd
          have hinlist : g.id ∈ subfolderIds (deleteFilesIn s (folderFileIds s fid)) fid :=
            List.mem_map.mpr ⟨g, List.mem_filter.mpr ⟨hgt, by simp [hd']⟩, rfl⟩
          have hfalse := hlist2 g.id hinlist
          have htrue : mapHas Folder.id v.folders g.id = true := mapHas_of_mem hgv
          rw [hfalse] at htrue
          exact Bool.noConfusion htrue
        refine ⟨hne, ?_⟩
        rintro ⟨h1, h2⟩
        have h2v : mapHas Folder.id v.folders d = false := by
          have : mapHas Folder.id (mapDelete Folder.id v.folders fid) d =
              mapHas Folder.id v.folders d := mapHas_mapDelete_ne hne
          rw [← this]
          exact h2
        have h1t : mapHas Folder.id (deleteFilesIn s (folderFileIds s fid)).folders d = true := by
          rw [hfoeq]
          exact h1
        exact gref2 g hgv d hd ⟨h1t, h2v⟩
      · intro sh hs fd hfd
        rintro ⟨h1, h2⟩
        have hsv : sh ∈ v.shares := hs
        have h2v : mapHas File.id v.files fd = false := h2
        cases hmid : mapHas File.id (deleteFilesIn s (folderFileIds s fid)).files fd with
        | true => exact sref2 sh hsv fd hfd ⟨hmid, h2v⟩
        | false => exact hsref0 sh (shmono2 sh hsv) fd hfd ⟨h1, hmid⟩

theorem rankOK_of_sub (r : Nat → Nat) {s s2 : MemStorage}
    (hsub : ∀ g ∈ s2.folders, g ∈ s.folders) (h : RankOK r s) : RankOK r s2 :=
  fun g hg p hp => h g (hsub g hg) p hp

theorem delSubs_total (del : MemStorage → Nat → Option (Bool × MemStorage))
    (r : Nat → Nat) (bound : Nat)
    (hmono : ∀ t i b t2, del t i = some (b, t2) → ∀ g ∈ t2.folders, g ∈ t.folders)
    (htot : ∀ t i, RankOK r t → r i < bound → ∃ out, del t i = some out) :
    ∀ (ids : List Nat) (s : MemStorage), RankOK r s → (∀ i ∈ ids, r i < bound) →
      ∃ s2, delSubs del s ids = some s2 := by
  intro ids
  induction ids with
  | nil =>
    intro s _ _
    exact ⟨s, rfl⟩
  | cons i rest ih =>
    intro s hr hb
    obtain ⟨out, hout⟩ := htot s i hr (hb i (List.mem_cons_self _ _))
    obtain ⟨b, u⟩ := out
    have hru : RankOK r u := rankOK_of_sub r (hmono s i b u hout) hr
    obtain ⟨s2, hs2⟩ := ih u hru (fun j hj => hb j (List.mem_cons_of_mem _ hj))
    refine ⟨s2, ?_⟩
    simp only [delSubs, hout]
    exact hs2

theorem deleteFolderF_total (r : Nat → Nat) : ∀ (fuel : Nat) (s : MemStorage) (fid : Nat),
    RankOK r s → r fid < fuel → ∃ out, deleteFolderF fuel s fid = some out := by
  intro fuel
  induction fuel with
  | zero =>
    intro s fid _ h
    exact absurd h (Nat.not_lt_zero _)
  | succ n ih =>
    intro s fid hr hlt
    have hfoeq := (deleteFilesIn_post (folderFileIds s fid) s).1
    have hrt : RankOK r (deleteFilesIn s (folderFileIds s fid)) := by
      intro g hg p hp
      rw [hfoeq] at hg
      exact hr g hg p hp
    have hbound : ∀ i ∈ subfolderIds (deleteFilesIn s (folderFileIds s fid)) fid, r i < n := by
      intro i hi
      obtain ⟨g, hgmem, hgid⟩ := List.mem_map.mp hi
      obtain ⟨hgt, hcond⟩ := List.mem_filter.mp hgmem
      have hgp : g.parentId = some fid := by simpa using hcond
      have hlt2 : r g.id < r fid := hrt g hgt fid hgp
      rw [← hgid]
      omega
    have hmono : ∀ t i b t2, deleteFolderF n t i = some (b, t2) →
        ∀ g ∈ t2.folders, g ∈ t.folders :=
      fun t i b t2 hh => (deleteFolderF_post n t i b t2 hh).1
    obtain ⟨v, hv⟩ := delSubs_total (deleteFolderF n) r n hmono
      (fun t i hrt2 hlt2 => ih t i hrt2 hlt2)
      (subfolderIds (deleteFilesIn s (folderFileIds s fid)) fid)
      (deleteFilesIn s (folderFileIds s fid)) hrt hbound
    refine ⟨(mapHas Folder.id v.folders fid,
      { v with folders := mapDelete Folder.id v.folders fid }), ?_⟩
    simp only [deleteFolderF, hv]

/-- C9: deleteFolder terminates on every store whose folder parentId
relation is acyclic (stated via the standard rank-function
characterization of acyclicity): some fuel makes the fuel-indexed
recursion — which, following the source, first deletes the folder's files,
then recursively deletes each subfolder, then removes the folder itself —
return a result, and that result no longer contains the folder. -/
theorem c9_deleteFolder_terminates :
    ∀ (s : MemStorage) (fid : Nat), AcyclicFolders s →
      ∃ fuel out, deleteFolderF fuel s fid = some out ∧
        mapHas Folder.id out.2.folders fid = false := by
  intro s fid hacyc
  obtain ⟨r, hr⟩ := hacyc
  obtain ⟨out, hout⟩ := deleteFolderF_total r (r fid + 1) s fid hr (Nat.lt_succ_self _)
  obtain ⟨b, s2⟩ := out
  have hpost := deleteFolderF_post (r fid + 1) s fid b s2 hout
  exact ⟨r fid + 1, (b, s2), hout, hpost.2.2.2.1⟩

/-- C9 witness: the two-folder tree (folder 2 inside folder 1) is acyclic,
and deleting folder 1 with fuel 3 indeed returns. -/
theorem c9_deleteFolder_terminates_witness :
    AcyclicFolders stateTreeEx ∧ (deleteFolderF 3 stateTreeEx 1).isSome = true := by
  have hacyc : AcyclicFolders stateTreeEx := by
    refine ⟨fun n => 2 - n, ?_⟩
    intro g hg p hp
    simp [stateTreeEx, emptyStore] at hg
    rcases hg with h | h
    · rw [h] at hp
      simp [folderEx] at hp
    · rw [h] at hp
      have hp1 : p = 1 := by simpa [folderEx] using hp.symm
      rw [h, hp1]
      decide
  have hterm := c9_deleteFolder_terminates stateTreeEx 1 hacyc
  exact ⟨hacyc, by decide⟩

/-- C1 counterexample: in `stateFolderShareEx` folder 1 exists and share 1
references it through folderId; deleteFolder(1) completes, removes the
folder, but the share referencing the deleted folder id is still in the
shares map, contradicting the claim that no share whose folderId
references a deleted id remains. -/
theorem c1_counterexample :
    deleteFolderF 2 stateFolderShareEx 1 =
      some (true, { stateFolderShareEx with folders := [] }) ∧
    mapHas Folder.id stateFolderShareEx.folders 1 = true ∧
    mapHas Folder.id ({ stateFolderShareEx with folders := [] } : MemStorage).folders 1 =
      false ∧
    folderShareEx ∈ ({ stateFolderShareEx with folders := [] } : MemStorage).shares ∧
    folderShareEx.folderId = some 1 := by
  refine ⟨by decide, rfl, rfl, by decide, rfl⟩

/-- C1 (amended): after a completed deleteFolder(f) run, the folder f is
gone, no remaining file's folderId and no remaining folder's parentId is f
or any folder id the run deleted, and no remaining share's fileId is a
file id the run deleted; shares whose folderId references a deleted folder
are NOT removed (see the counterexample) — that clause of the claim fails
on the code, which deletes shares only from deleteFile. -/
theorem c1_no_orphans_except_folder_shares :
    ∀ (fuel : Nat) (s : MemStorage) (fid : Nat) (b : Bool) (s2 : MemStorage),
      deleteFolderF fuel s fid = some (b, s2) →
      mapHas Folder.id s2.folders fid = false ∧
      (∀ f ∈ s2.files, ∀ d, f.folderId = some d →
        ¬(d = fid ∨ FolderDeleted s s2 d)) ∧
      (∀ g ∈ s2.folders, ∀ d, g.parentId = some d →
        ¬(d = fid ∨ FolderDeleted s s2 d)) ∧
      (∀ sh ∈ s2.shares, ∀ fd, sh.fileId = some fd → ¬ FileDeleted s s2 fd) := by
  intro fuel s fid b s2 h
  obtain ⟨_, _, _, hgone, fref, gref, sref⟩ := deleteFolderF_post fuel s fid b s2 h
  refine ⟨hgone, ?_, ?_, sref⟩
  · intro f hf d hd hor
    rcases hor with heq | hdel
    · exact (fref f hf d hd).1 heq
    · exact (fref f hf d hd).2 hdel
  · intro g hg d hd hor
    rcases hor with heq | hdel
    · exact (gref g hg d hd).1 heq
    · exact (gref g hg d hd).2 hdel

/-- C1 amended witness: the run of the counterexample state discharges the
hypothesis; folder 1 is gone from the result. -/
theorem c1_no_orphans_witness :
    mapHas Folder.id ({ stateFolderShareEx with folders := [] } : MemStorage).folders 1 =
      false :=
  (c1_no_orphans_except_folder_shares 2 stateFolderShareEx 1 true
    { stateFolderShareEx with folders := [] } (by decide)).1

end CloudStore
